import Mathlib

/-!
# qtick: ring transport, tick batch and ingestion bridge

A shallow embedding of `common/ring.hpp`, `common/tick.hpp` and
`src/ingest_bridge/main.cpp`, followed by the properties of the
specification that are settled against it.

Conventions of the embedding:
* `size_t` / `uint64_t` values are natural numbers, reduced modulo `2 ^ 64`
  wherever the C++ arithmetic could wrap;
* `std::array<T, SIZE>` is a list, an element store is `List.set`, an element
  read is `List.getD`;
* a `double` is carried as its 64-bit pattern (the bridge only copies prices);
* a `steady_clock` reading is an integer number of nanoseconds;
* a call that has no defined result (the out-of-bounds read of the symbol
  table) gives `none`, and the thread that made it takes no further step.
-/

namespace qtick

/-- Number of values of a `size_t` / `uint64_t`. -/
def WORD : Nat := 2 ^ 64

/-! ## common/ring.hpp -/

/-- `SPSCRing<T, SIZE>`: consumer index, producer index and the slot array. -/
structure SPSCRing (T : Type) where
  head_ : Nat
  tail_ : Nat
  buffer_ : List T
  deriving DecidableEq, Repr

namespace SPSCRing

variable {T : Type}

/-- `static constexpr size_t MASK = SIZE - 1;` in `size_t` arithmetic. -/
def MASK (SIZE : Nat) : Nat := (SIZE + WORD - 1) % WORD

/-- `SPSCRing() : head_(0), tail_(0) {}` with value-initialised slots. -/
def init [Inhabited T] (SIZE : Nat) : SPSCRing T :=
  { head_ := 0, tail_ := 0, buffer_ := List.replicate SIZE default }

/-- `bool try_push(const T& item)`: the returned flag and the ring afterwards. -/
def try_push (SIZE : Nat) (r : SPSCRing T) (item : T) : Bool × SPSCRing T :=
  let current_tail := r.tail_
  let next_tail := ((current_tail + 1) % WORD) &&& MASK SIZE
  if next_tail = r.head_ then
    (false, r)
  else
    (true, { r with buffer_ := r.buffer_.set current_tail item, tail_ := next_tail })

/-- `bool try_pop(T& item)`: `none` for `false`, `some item` for `true`, and
the ring afterwards. -/
def try_pop [Inhabited T] (SIZE : Nat) (r : SPSCRing T) : Option T × SPSCRing T :=
  let current_head := r.head_
  if current_head = r.tail_ then
    (none, r)
  else
    (some (r.buffer_.getD current_head default),
      { r with head_ := ((current_head + 1) % WORD) &&& MASK SIZE })

/-- `bool is_empty() const`. -/
def is_empty (r : SPSCRing T) : Bool := r.head_ == r.tail_

/-- `size_t approx_size() const`: `(t - h) & MASK` in `size_t` arithmetic. -/
def approx_size (SIZE : Nat) (r : SPSCRing T) : Nat :=
  ((r.tail_ + WORD - r.head_) % WORD) &&& MASK SIZE

/-! ### Abstraction used in the proofs -/

/-- Index wraparound without division, valid below `2 * SIZE`. -/
def wrap (SIZE j : Nat) : Nat := if j < SIZE then j else j - SIZE

/-- Number of slots between the consumer index and the producer index. -/
def occupancy (SIZE : Nat) (r : SPSCRing T) : Nat :=
  wrap SIZE (r.tail_ + SIZE - r.head_)

/-- The records held by the ring, oldest first. -/
def live [Inhabited T] (SIZE : Nat) (r : SPSCRing T) : List T :=
  (List.range (occupancy SIZE r)).map
    (fun i => r.buffer_.getD (wrap SIZE (r.head_ + i)) default)

/-- Both cursors index the slot array, which has `SIZE` slots. -/
def Inv (SIZE : Nat) (r : SPSCRing T) : Prop :=
  r.head_ < SIZE ∧ r.tail_ < SIZE ∧ r.buffer_.length = SIZE

instance (SIZE : Nat) (r : SPSCRing T) : Decidable (Inv SIZE r) := by
  unfold Inv
  infer_instance

/-- One call on the ring: a push of a record, or a pop. -/
inductive Op (T : Type) where
  | push (item : T)
  | pop

/-- What a run of calls has produced so far: the ring, the records accepted by
the successful pushes and the records returned by the successful pops. -/
structure Trace (T : Type) where
  ring : SPSCRing T
  pushed : List T
  popped : List T

/-- Apply one call and record its outcome. -/
def apply [Inhabited T] (SIZE : Nat) (s : Trace T) : Op T → Trace T
  | Op.push item =>
    match try_push SIZE s.ring item with
    | (true, r) => { ring := r, pushed := s.pushed ++ [item], popped := s.popped }
    | (false, r) => { s with ring := r }
  | Op.pop =>
    match try_pop SIZE s.ring with
    | (some item, r) => { ring := r, pushed := s.pushed, popped := s.popped ++ [item] }
    | (none, r) => { s with ring := r }

/-- Apply a sequence of calls, one at a time, to a freshly constructed ring. -/
def run [Inhabited T] (SIZE : Nat) (ops : List (Op T)) : Trace T :=
  ops.foldl (apply SIZE) { ring := init SIZE, pushed := [], popped := [] }

/-- Push the records one after the other; the flags returned, in order, and
the ring afterwards. -/
def push_all (SIZE : Nat) : SPSCRing T → List T → List Bool × SPSCRing T
  | r, [] => ([], r)
  | r, x :: xs =>
    let p := try_push SIZE r x
    let q := push_all SIZE p.2 xs
    (p.1 :: q.1, q.2)

end SPSCRing

/-! ## common/tick.hpp -/

/-- `struct alignas(32) Tick`. The `double price` is carried as its 64-bit
pattern: the bridge copies it and never computes with it. -/
structure Tick where
  ts_ns : Nat
  sym_idx : Nat
  size : Nat
  price : Nat
  seq : Nat
  deriving DecidableEq, Repr

/-- `Tick() : ts_ns(0), sym_idx(0), size(0), price(0.0), seq(0) {}`. -/
instance : Inhabited Tick := ⟨{ ts_ns := 0, sym_idx := 0, size := 0, price := 0, seq := 0 }⟩

/-- `sizeof(Tick)`, fixed by the `static_assert` of tick.hpp. -/
def sizeof_Tick : Nat := 32

/-- The table `names` inside `symbol_to_str`. -/
def names : List String := ["AAPL", "GOOGL", "MSFT", "AMZN", "TSLA"]

/-- `symbol_to_str(Symbol sym)`: `names[static_cast<uint32_t>(sym)]`, an
unchecked index into a table of five entries. For an index outside the table
the read is out of bounds and the call has no defined result: that is `none`. -/
def symbol_to_str (sym : Nat) : Option String := names[sym]?

/-- `TickBatch<N>`: the slot array and the count cursor. -/
structure TickBatch where
  ticks : List Tick
  count : Nat
  deriving DecidableEq, Repr

namespace TickBatch

/-- A default-constructed `TickBatch<N>`. -/
def init (N : Nat) : TickBatch := { ticks := List.replicate N default, count := 0 }

/-- `bool is_full() const { return count >= N; }`. -/
def is_full (N : Nat) (b : TickBatch) : Bool := decide (b.count ≥ N)

/-- `bool is_empty() const { return count == 0; }`. -/
def is_empty (b : TickBatch) : Bool := b.count == 0

/-- `void push(const Tick& t) { if (count < N) { ticks[count++] = t; } }`.
The increment cannot wrap: it runs only when `count < N`, and `N` is a
`size_t`. -/
def push (N : Nat) (b : TickBatch) (t : Tick) : TickBatch :=
  if b.count < N then
    { ticks := b.ticks.set b.count t, count := b.count + 1 }
  else
    b

/-- `void clear() { count = 0; }`. -/
def clear (b : TickBatch) : TickBatch := { b with count := 0 }

/-- `const Tick* data() const`. -/
def data (b : TickBatch) : List Tick := b.ticks

/-- `size_t size() const`. -/
def size (b : TickBatch) : Nat := b.count

/-- The live records of the batch: the first `size()` slots of `data()`. -/
def records (b : TickBatch) : List Tick := b.ticks.take b.count

end TickBatch

/-! ## src/ingest_bridge/main.cpp -/

/-- `constexpr size_t RING_SIZE = 4096;`. -/
def RING_SIZE : Nat := 4096

/-- `constexpr size_t BATCH_SIZE = 64;`. -/
def BATCH_SIZE : Nat := 64

/-- The hiredis reply kinds (`REDIS_REPLY_*`). -/
inductive ReplyType where
  | string
  | array
  | integer
  | nil
  | status
  | error
  deriving DecidableEq, Repr

/-- An element of an array reply: its kind and its bytes; `len` is the number
of bytes of `str`. -/
structure ReplyElement where
  type : ReplyType
  str : List Nat
  deriving DecidableEq, Repr

/-- The field `len` of a reply element. -/
def ReplyElement.len (e : ReplyElement) : Nat := e.str.length

/-- A reply handed out by `redisGetReply`: its kind and its elements;
`elements` is the number of entries of `element`. -/
structure RedisReply where
  type : ReplyType
  element : List ReplyElement
  deriving DecidableEq, Repr

/-- The field `elements` of a reply. -/
def RedisReply.elements (m : RedisReply) : Nat := m.element.length

/-- The unsigned integer stored little-endian in a run of bytes. -/
def le_bytes : List Nat → Nat
  | [] => 0
  | b :: bs => b % 256 + 256 * le_bytes bs

/-- The integer held in `len` bytes at offset `off`. -/
def field (str : List Nat) (off len : Nat) : Nat := le_bytes ((str.drop off).take len)

/-- `std::memcpy(&tick, data->str, sizeof(Tick))` for the layout of `Tick` on
the little-endian target: `ts_ns` at 0, `sym_idx` at 8, `size` at 12, `price`
at 16, `seq` at 24. -/
def memcpy_Tick (str : List Nat) : Tick :=
  { ts_ns := field str 0 8, sym_idx := field str 8 4, size := field str 12 4,
    price := field str 16 8, seq := field str 24 8 }

/-- The checks of the reader loop on a reply (array of three elements, the
third a string of `sizeof(Tick)` bytes) and the decoding of the tick. -/
def decode_message (m : RedisReply) : Option Tick :=
  if m.type = ReplyType.array ∧ m.elements = 3 then
    match m.element[2]? with
    | some data =>
      if data.type = ReplyType.string ∧ data.len = sizeof_Tick then
        some (memcpy_Tick data.str)
      else
        none
    | none => none
  else
    none

/-- The locals of `reader_thread`, and whether the thread has left its loop. -/
structure ReaderState where
  received : Nat
  drops : Nat
  exited : Bool
  deriving DecidableEq, Repr

/-- The body of the reader loop for one result of `redisGetReply` (`none`: the
call failed or gave no reply, and the loop breaks). -/
def reader_iteration (SIZE : Nat) (msg : Option RedisReply) (ring : SPSCRing Tick)
    (st : ReaderState) : SPSCRing Tick × ReaderState :=
  match msg with
  | none => (ring, { st with exited := true })
  | some m =>
    match decode_message m with
    | some tick =>
      match SPSCRing.try_push SIZE ring tick with
      | (false, ring1) => (ring1, { st with drops := (st.drops + 1) % WORD })
      | (true, ring1) => (ring1, { st with received := (st.received + 1) % WORD })
    | none => (ring, st)

/-- The four vectors built by `send_batch_to_q`. A slot of `times`, `prices`
and `sizes` holds the bit pattern stored into it; a slot of `syms` holds the
name interned by `ss`. -/
structure Columns where
  times : List Nat
  syms : List String
  prices : List Nat
  sizes : List Nat
  deriving DecidableEq, Repr

/-- `ktn(KP, n)`, `ktn(KS, n)`, `ktn(KF, n)`, `ktn(KI, n)`: four vectors of
`n` slots. -/
def ktn (n : Nat) : Columns :=
  { times := List.replicate n 0, syms := List.replicate n "",
    prices := List.replicate n 0, sizes := List.replicate n 0 }

/-- The body of the loop of `send_batch_to_q` at index `i`. When
`symbol_to_str` has no defined result, `ss` is handed a pointer read from
outside the table and the program does not get any further: that is `none`. -/
def fill_slot (batch : TickBatch) (i : Nat) (c : Columns) : Option Columns :=
  let t := batch.ticks.getD i default
  match symbol_to_str t.sym_idx with
  | some name =>
    some { times := c.times.set i t.ts_ns,
           syms := c.syms.set i name,
           prices := c.prices.set i t.price,
           sizes := c.sizes.set i t.size }
  | none => none

/-- The vectors after `for (size_t i = 0; i < n; ++i)` with `n = batch.size()`;
`none` when one of the iterations has no defined result. -/
def build_columns (batch : TickBatch) : Option Columns :=
  (List.range batch.size).foldl (fun c i => c.bind (fill_slot batch i)) (some (ktn batch.size))

/-- One call `k(handle, "upd", times, syms, prices, sizes, (K)0)`: the vectors
passed, the live records of the batch they were built from, and whether the
store answered without error. -/
structure StoreWrite where
  records : List Tick
  cols : Columns
  ok : Bool
  deriving DecidableEq, Repr

/-- `send_batch_to_q(handle, batch)`; `q_ok` tells whether the store answers
the call without error. Gives the value returned and the call made, if any;
`none` when the loop that builds the vectors has no defined result, so that
`k` is never reached and the function does not return. -/
def send_batch_to_q (q_ok : Bool) (batch : TickBatch) : Option (Bool × Option StoreWrite) :=
  if batch.is_empty then
    some (true, none)
  else
    match build_columns batch with
    | some cols => some (q_ok, some { records := batch.records, cols := cols, ok := q_ok })
    | none => none

/-- `flush_timeout = std::chrono::microseconds(100)`, in nanoseconds. -/
def flush_timeout : Int := 100000

/-- The locals of `writer_thread`; whether the thread has left its loop;
whether a call of `send_batch_to_q` failed to return (the out-of-bounds read of
`symbol_to_str`), after which the thread does nothing more; and the calls it
has made to the store, oldest first. -/
structure WriterState where
  batch : TickBatch
  batches_sent : Nat
  ticks_sent : Nat
  last_flush : Int
  exited : Bool
  crashed : Bool
  store : List StoreWrite
  deriving DecidableEq, Repr

/-- The counters after a call of `send_batch_to_q` inside the loop:
`++batches_sent; ticks_sent += batch.size();` when it returned true. -/
def count_sent (sent : Bool) (batch : TickBatch) (w : WriterState) : WriterState :=
  if sent then
    { w with batches_sent := (w.batches_sent + 1) % WORD,
             ticks_sent := (w.ticks_sent + batch.size) % WORD }
  else
    w

/-- The body of the writer loop; `now` is the reading of the steady clock made
in this iteration. -/
def writer_iteration (SIZE N : Nat) (now : Int) (q_ok : Bool) (ring : SPSCRing Tick)
    (w : WriterState) : SPSCRing Tick × WriterState :=
  match SPSCRing.try_pop SIZE ring with
  | (some tick, ring1) =>
    let batch := w.batch.push N tick
    if batch.is_full N then
      match send_batch_to_q q_ok batch with
      | some r =>
        let w1 := count_sent r.1 batch w
        (ring1, { w1 with batch := batch.clear, last_flush := now,
                          store := w.store ++ r.2.toList })
      | none => (ring1, { w with batch := batch, crashed := true })
    else
      (ring1, { w with batch := batch })
  | (none, ring1) =>
    if !w.batch.is_empty && decide (now - w.last_flush > flush_timeout) then
      match send_batch_to_q q_ok w.batch with
      | some r =>
        let w1 := count_sent r.1 w.batch w
        (ring1, { w1 with batch := w.batch.clear, last_flush := now,
                          store := w.store ++ r.2.toList })
      | none => (ring1, { w with crashed := true })
    else
      (ring1, w)

/-- The final flush of `writer_thread`, after the loop. -/
def writer_final (q_ok : Bool) (w : WriterState) : WriterState :=
  if !w.batch.is_empty then
    match send_batch_to_q q_ok w.batch with
    | some r =>
      { w with ticks_sent := (w.ticks_sent + w.batch.size) % WORD,
               store := w.store ++ r.2.toList, exited := true }
    | none => { w with exited := true, crashed := true }
  else
    { w with exited := true }

/-- The state shared by the two threads of the bridge after both have
connected: the flag `running`, the ring, and the locals of each thread. -/
structure Bridge where
  running : Bool
  ring : SPSCRing Tick
  reader : ReaderState
  writer : WriterState

/-- The bridge when both loops are about to start; `t0` is the first reading
of the steady clock by the writer. -/
def Bridge.init (SIZE N : Nat) (t0 : Int) : Bridge :=
  { running := true,
    ring := SPSCRing.init SIZE,
    reader := { received := 0, drops := 0, exited := false },
    writer := { batch := TickBatch.init N, batches_sent := 0, ticks_sent := 0,
                last_flush := t0, exited := false, crashed := false, store := [] } }

/-- What can happen next in the bridge. -/
inductive Event where
  /-- The handler of SIGINT runs: `running.store(false)`. -/
  | signal
  /-- The reader evaluates its loop test and, if it holds, runs one iteration
  in which `redisGetReply` gives `msg`. -/
  | reader (msg : Option RedisReply)
  /-- The writer, unless it has crashed, evaluates its loop test and runs one
  iteration if it holds, its final flush otherwise. -/
  | writer (now : Int) (q_ok : Bool)
  deriving DecidableEq

/-- One step of the bridge. A writer that has crashed takes no further step.
The crash ends the whole program; later reader events are left unconstrained,
so that every run of the program is one of the runs described here. -/
def step (SIZE N : Nat) (b : Bridge) : Event → Bridge
  | Event.signal => { b with running := false }
  | Event.reader msg =>
    if b.reader.exited then b
    else if b.running then
      let r := reader_iteration SIZE msg b.ring b.reader
      { b with ring := r.1, reader := r.2 }
    else
      { b with reader := { b.reader with exited := true } }
  | Event.writer now q_ok =>
    if b.writer.exited then b
    else if b.writer.crashed then b
    else if b.running then
      let r := writer_iteration SIZE N now q_ok b.ring b.writer
      { b with ring := r.1, writer := r.2 }
    else
      { b with writer := writer_final q_ok b.writer }

/-- A run of the bridge: the steps taken one after the other from the start. -/
def run_bridge (SIZE N : Nat) (t0 : Int) (evs : List Event) : Bridge :=
  evs.foldl (step SIZE N) (Bridge.init SIZE N t0)

/-- The tick carried by an event, when it is a reply that passes the checks
of the reader. -/
def Event.tick : Event → Option Tick
  | Event.reader (some m) => decode_message m
  | _ => none

/-- The ticks sent by the upstream source during a run, in order. -/
def upstream (evs : List Event) : List Tick := evs.filterMap Event.tick

/-- The records the writer holds in its batch and has still to flush. -/
def pending (w : WriterState) : List Tick := if w.exited then [] else w.batch.records

/-- All records handed to the store so far, in flush order. -/
def delivered (w : WriterState) : List Tick := w.store.flatMap StoreWrite.records

/-- The body of the loop of `send_batch_to_q` at index `i` when the symbol of
record `i` is in the table. -/
def fill_valid (batch : TickBatch) (i : Nat) (c : Columns) : Columns :=
  let t := batch.ticks.getD i default
  { times := c.times.set i t.ts_ns,
    syms := c.syms.set i ((symbol_to_str t.sym_idx).getD ""),
    prices := c.prices.set i t.price,
    sizes := c.sizes.set i t.size }

/-- Every record has a symbol index below `Symbol::COUNT`. -/
def ValidSymbols (rs : List Tick) : Prop := ∀ t ∈ rs, t.sym_idx < 5

instance (rs : List Tick) : Decidable (ValidSymbols rs) := by
  unfold ValidSymbols
  infer_instance

/-- The four vectors that hold, slot by slot, the fields of the given records
(the name of the symbol when it has one). -/
def columns_of (rs : List Tick) : Columns :=
  { times := rs.map Tick.ts_ns,
    syms := rs.map (fun t => (symbol_to_str t.sym_idx).getD ""),
    prices := rs.map Tick.price,
    sizes := rs.map Tick.size }

/-- The relation kept by every call: the cursors are in range and the accepted
records are the returned records followed by the live records. -/
def SPSCRing.Good {T : Type} [Inhabited T] (S : Nat) (s : SPSCRing.Trace T) : Prop :=
  SPSCRing.Inv S s.ring ∧ s.pushed = s.popped ++ SPSCRing.live S s.ring

/-- The batch of a writer of capacity `N` between two iterations: `N` slots,
and room for one more record unless the capacity is zero. -/
def BatchOk (N : Nat) (b : TickBatch) : Prop :=
  b.ticks.length = N ∧ (b.count < N ∨ b.count = 0)

instance (N : Nat) (b : TickBatch) : Decidable (BatchOk N b) := by
  unfold BatchOk
  infer_instance

/-- The relation kept by every step of the bridge, for the ticks `U` sent by
the upstream source so far: the batch of a writer that has not crashed is well
formed, and what has been handed to the store, then what the writer holds,
then what the ring holds, is in order a part of `U`. -/
def BridgeInv (S N : Nat) (U : List Tick) (b : Bridge) : Prop :=
  SPSCRing.Inv S b.ring ∧ (b.writer.crashed = true ∨ BatchOk N b.writer.batch) ∧
    (delivered b.writer ++ pending b.writer ++ SPSCRing.live S b.ring).Sublist U

/-- The condition of the `static_assert` of `SPSCRing`:
`(SIZE & (SIZE - 1)) == 0` in `size_t` arithmetic. -/
def SPSCRing.static_assert_SIZE (SIZE : Nat) : Bool := (SIZE &&& SPSCRing.MASK SIZE) == 0

/-- One call on a batch: a push of a record, or a clear. -/
inductive BatchOp where
  | push (t : Tick)
  | clear
  deriving DecidableEq, Repr

/-- Apply one call to a batch of capacity `N`. -/
def TickBatch.apply (N : Nat) (b : TickBatch) : BatchOp → TickBatch
  | BatchOp.push t => b.push N t
  | BatchOp.clear => b.clear

/-- Apply a sequence of calls to a default-constructed `TickBatch<N>`. -/
def TickBatch.run (N : Nat) (ops : List BatchOp) : TickBatch :=
  ops.foldl (TickBatch.apply N) (TickBatch.init N)

/-- The reader fed with the replies `ms` one after the other while nothing
else touches the ring. -/
def reader_run (SIZE : Nat) (ms : List RedisReply) (ring : SPSCRing Tick)
    (st : ReaderState) : SPSCRing Tick × ReaderState :=
  ms.foldl (fun p m => reader_iteration SIZE (some m) p.1 p.2) (ring, st)

/-- The `w` bytes, least significant first, of an unsigned integer. -/
def bytes_le : Nat → Nat → List Nat
  | 0, _ => []
  | w + 1, n => n % 256 :: bytes_le w (n / 256)

/-- The 32 bytes of a `Tick` in memory on the little-endian target, in the
order of the layout read by `memcpy_Tick`. -/
def bytes_of_Tick (t : Tick) : List Nat :=
  bytes_le 8 t.ts_ns ++ (bytes_le 4 t.sym_idx ++ (bytes_le 4 t.size ++
    (bytes_le 8 t.price ++ bytes_le 8 t.seq)))

/-- The counters of the reader after a call of `try_push` that returned `f`. -/
def count_push (f : Bool) (st : ReaderState) : ReaderState :=
  if f then { st with received := (st.received + 1) % WORD }
  else { st with drops := (st.drops + 1) % WORD }

/-- A reply that passes the checks of the reader: an array of three elements
whose third element is a string of `sizeof(Tick)` bytes. -/
def WellFormed (m : RedisReply) : Prop :=
  m.type = ReplyType.array ∧
    ∃ e0 e1 data, m.element = [e0, e1, data] ∧ data.type = ReplyType.string ∧
      data.str.length = 32

/-- The accounting kept by the reader while it stays in its loop, for the
ticks `U` it has tried to push: `a` accepted, `d` dropped, each counter being
its number modulo `2 ^ 64`. -/
def ReaderCount (U : List Tick) (b : Bridge) : Prop :=
  b.running = true ∧ b.reader.exited = false ∧
    ∃ a d, b.reader.received = a % WORD ∧ b.reader.drops = d % WORD ∧ a + d = U.length

/-- The number of store calls of the writer that the store answered without
error. -/
def successful_writes (w : WriterState) : Nat := (w.store.filter StoreWrite.ok).length

/-- The number of ticks contained in the store calls that the store answered
without error. -/
def ticks_written (w : WriterState) : Nat :=
  ((w.store.filter StoreWrite.ok).map (fun x => x.records.length)).sum

/-! ### Sample data used by the worked instances -/

/-- A tick for AAPL. -/
def tick_a : Tick := { ts_ns := 100, sym_idx := 0, size := 5, price := 7, seq := 1 }

/-- A tick for TSLA. -/
def tick_b : Tick := { ts_ns := 200, sym_idx := 4, size := 6, price := 8, seq := 2 }

/-- A tick left over in a slot beyond the count. -/
def tick_stale : Tick := { ts_ns := 999, sym_idx := 2, size := 9, price := 9, seq := 0 }

/-- A batch of capacity three holding two records and a stale third slot. -/
def batch_two_of_three : TickBatch := { ticks := [tick_a, tick_b, tick_stale], count := 2 }

/-- A writer that holds `batch_two_of_three` and has made no store call. -/
def writer_two_of_three : WriterState :=
  { batch := batch_two_of_three, batches_sent := 0, ticks_sent := 0, last_flush := 0,
    exited := false, crashed := false, store := [] }

/-- The 32 bytes of a tick whose fields are all below 256. -/
def payload (ts sym size price seq : Nat) : List Nat :=
  [ts, 0, 0, 0, 0, 0, 0, 0, sym, 0, 0, 0, size, 0, 0, 0,
   price, 0, 0, 0, 0, 0, 0, 0, seq, 0, 0, 0, 0, 0, 0, 0]

/-- A pub/sub message `[type, channel, data]` carrying the given bytes. -/
def message (data : List Nat) : RedisReply :=
  { type := ReplyType.array,
    element := [{ type := ReplyType.string, str := [109, 101, 115, 115, 97, 103, 101] },
                { type := ReplyType.string, str := [116, 105, 99, 107, 115] },
                { type := ReplyType.string, str := data }] }

/-- A well-formed message whose symbol index is 5, one past the table. -/
def message_sym5 : RedisReply := message (payload 1 5 3 7 1)

/-- The tick decoded from `message_sym5`. -/
def tick_sym5 : Tick := { ts_ns := 1, sym_idx := 5, size := 3, price := 7, seq := 1 }

/-- A run on a ring of two slots and a batch of two: the second tick is dropped
(ring full), the first and third are batched and flushed. -/
def sample_run : List Event :=
  [Event.reader (some (message (payload 10 0 5 7 1))),
   Event.reader (some (message (payload 20 1 5 7 2))),
   Event.writer 0 true,
   Event.reader (some (message (payload 30 2 5 7 3))),
   Event.writer 1 true,
   Event.signal,
   Event.writer 2 true]

/-- Calls on a ring of four slots: three pushes, one refused push, two pops,
one more push. -/
def sample_ops : List (SPSCRing.Op Nat) :=
  [SPSCRing.Op.push 10, SPSCRing.Op.push 11, SPSCRing.Op.push 12, SPSCRing.Op.push 13,
   SPSCRing.Op.pop, SPSCRing.Op.pop, SPSCRing.Op.push 14]

/-- The tick carried by `message (payload 10 0 5 7 1)`. -/
def tick_c : Tick := { ts_ns := 10, sym_idx := 0, size := 5, price := 7, seq := 1 }

/-- A pub/sub message whose payload has three bytes instead of 32. -/
def message_short : RedisReply := message [1, 2, 3]

/-- A reader that has accepted two ticks and dropped none. -/
def reader_two : ReaderState := { received := 2, drops := 0, exited := false }

/-- A ring of two slots holding `tick_a`: it is full. -/
def ring_full_two : SPSCRing Tick := (SPSCRing.try_push 2 (SPSCRing.init 2) tick_a).2

/-- The first five steps of `sample_run`: three ticks sent, the second one
dropped, no shutdown. -/
def sample_run_live : List Event := sample_run.take 5

/-- A run that ends with a shutdown while the writer holds one tick: the tick
is received and popped, the signal arrives, and the store answers the final
flush with `q_ok`. -/
def shutdown_run (q_ok : Bool) : List Event :=
  [Event.reader (some (message (payload 10 0 5 7 1))), Event.writer 0 true, Event.signal,
   Event.writer 1 q_ok]

/-- The writer's state after `message_sym5` has been received and popped: the
batch holds the one tick and the ring is empty. -/
def bridge_sym5 : Bridge :=
  run_bridge RING_SIZE BATCH_SIZE 0 [Event.reader (some message_sym5), Event.writer 0 true]

/-- A run in which 64 ticks are received and popped one by one with no timeout
in between, the first of them being the tick of `message_sym5`. -/
def full_batch_run : List Event :=
  Event.reader (some message_sym5) :: Event.writer 0 true ::
    (List.replicate 63
      [Event.reader (some (message (payload 10 0 5 7 1))), Event.writer 0 true]).flatten

/-! ## Ring lemmas -/

namespace SPSCRing

variable {T : Type}

theorem MASK_pow (k : Nat) (hk : k < 64) : MASK (2 ^ k) = 2 ^ k - 1 := by
  have h1 : 1 ≤ 2 ^ k := Nat.one_le_two_pow
  have h2 : 2 ^ k < 2 ^ 64 := Nat.pow_lt_pow_right (by decide) hk
  unfold MASK WORD
  omega

theorem next_index (k : Nat) (hk : k < 64) (x : Nat) (hx : x < 2 ^ k) :
    ((x + 1) % WORD) &&& MASK (2 ^ k) = if x + 1 = 2 ^ k then 0 else x + 1 := by
  have h2 : 2 ^ k < 2 ^ 64 := Nat.pow_lt_pow_right (by decide) hk
  have h3 : (x + 1) % WORD = x + 1 := Nat.mod_eq_of_lt (by unfold WORD; omega)
  rw [MASK_pow k hk, h3, Nat.and_pow_two_sub_one_eq_mod]
  split
  · next h => rw [h, Nat.mod_self]
  · next h => exact Nat.mod_eq_of_lt (by omega)

theorem getD_set_ne [Inhabited T] (l : List T) (i j : Nat) (x : T) (h : i ≠ j) :
    (l.set i x).getD j default = l.getD j default := by
  simp [List.getD_eq_getElem?_getD, List.getElem?_set_ne h]

theorem getD_set_self [Inhabited T] (l : List T) (i : Nat) (x : T) (h : i < l.length) :
    (l.set i x).getD i default = x := by
  simp [List.getD_eq_getElem?_getD, h]

theorem occupancy_lt (S : Nat) (r : SPSCRing T) (h : Inv S r) : occupancy S r < S := by
  obtain ⟨h1, h2, _⟩ := h
  unfold occupancy wrap
  split <;> omega

/-- A push into a ring that is not full appends the record to the live records. -/
theorem try_push_ok [Inhabited T] (k : Nat) (hk : k < 64) (r : SPSCRing T)
    (h : Inv (2 ^ k) r) (x : T) (hroom : occupancy (2 ^ k) r + 1 < 2 ^ k) :
    (try_push (2 ^ k) r x).1 = true ∧ Inv (2 ^ k) (try_push (2 ^ k) r x).2 ∧
      live (2 ^ k) (try_push (2 ^ k) r x).2 = live (2 ^ k) r ++ [x] := by
  obtain ⟨h1, h2, h3⟩ := h
  have hn := next_index k hk r.tail_ h2
  unfold try_push
  simp only [hn]
  generalize 2 ^ k = S at *
  have hne : ¬ (if r.tail_ + 1 = S then 0 else r.tail_ + 1) = r.head_ := by
    unfold occupancy wrap at hroom
    split <;> split at hroom <;> omega
  rw [if_neg hne]
  refine ⟨rfl, ⟨h1, ?_, ?_⟩, ?_⟩
  · show (if r.tail_ + 1 = S then 0 else r.tail_ + 1) < S
    split <;> omega
  · simp [h3]
  · have hocc : occupancy S
        { r with buffer_ := r.buffer_.set r.tail_ x,
                 tail_ := if r.tail_ + 1 = S then 0 else r.tail_ + 1 }
        = occupancy S r + 1 := by
      unfold occupancy wrap at hroom ⊢
      simp only
      split at hroom <;> split <;> split <;> omega
    unfold live
    rw [hocc, List.range_succ, List.map_append]
    congr 1
    · apply List.map_congr_left
      intro i hi
      rw [List.mem_range] at hi
      apply getD_set_ne
      show r.tail_ ≠ wrap S (r.head_ + i)
      unfold occupancy wrap at hi
      unfold wrap
      split at hi <;> split <;> omega
    · have hw : wrap S (r.head_ + occupancy S r) = r.tail_ := by
        unfold occupancy wrap
        split <;> split <;> omega
      simp only [List.map_cons, List.map_nil, hw]
      rw [getD_set_self _ _ _ (by omega)]

/-- A push into a full ring is refused and changes nothing. -/
theorem try_push_full (k : Nat) (hk : k < 64) (r : SPSCRing T)
    (h : Inv (2 ^ k) r) (x : T) (hfull : ¬ occupancy (2 ^ k) r + 1 < 2 ^ k) :
    try_push (2 ^ k) r x = (false, r) := by
  obtain ⟨h1, h2, h3⟩ := h
  have hn := next_index k hk r.tail_ h2
  unfold try_push
  simp only [hn]
  generalize 2 ^ k = S at *
  have he : (if r.tail_ + 1 = S then 0 else r.tail_ + 1) = r.head_ := by
    unfold occupancy wrap at hfull
    split <;> split at hfull <;> omega
  rw [if_pos he]

/-- A pop from an empty ring is refused and changes nothing. -/
theorem try_pop_empty [Inhabited T] (S : Nat) (r : SPSCRing T)
    (h : Inv S r) (hempty : occupancy S r = 0) :
    try_pop S r = (none, r) := by
  obtain ⟨h1, h2, h3⟩ := h
  have he : r.head_ = r.tail_ := by
    unfold occupancy wrap at hempty
    split at hempty <;> omega
  unfold try_pop
  simp only [he, if_true]

/-- A pop from a ring that is not empty returns the oldest live record. -/
theorem try_pop_ok [Inhabited T] (k : Nat) (hk : k < 64) (r : SPSCRing T)
    (h : Inv (2 ^ k) r) (hocc : occupancy (2 ^ k) r ≠ 0) :
    ∃ v, (try_pop (2 ^ k) r).1 = some v ∧ Inv (2 ^ k) (try_pop (2 ^ k) r).2 ∧
      live (2 ^ k) r = v :: live (2 ^ k) (try_pop (2 ^ k) r).2 := by
  obtain ⟨h1, h2, h3⟩ := h
  have hn := next_index k hk r.head_ h1
  unfold try_pop
  simp only [hn]
  generalize 2 ^ k = S at *
  have hne : ¬ r.head_ = r.tail_ := by
    intro he
    apply hocc
    unfold occupancy wrap
    split <;> omega
  rw [if_neg hne]
  refine ⟨_, rfl, ⟨?_, h2, h3⟩, ?_⟩
  · show (if r.head_ + 1 = S then 0 else r.head_ + 1) < S
    split <;> omega
  · have hlt : occupancy S r < S := occupancy_lt S r ⟨h1, h2, h3⟩
    have ho : occupancy S
        { r with head_ := if r.head_ + 1 = S then 0 else r.head_ + 1 }
        = occupancy S r - 1 := by
      unfold occupancy wrap at hocc hlt ⊢
      simp only
      split at hocc <;> split <;> split <;> omega
    unfold live
    rw [ho]
    obtain ⟨n, hn1⟩ : ∃ n, occupancy S r = n + 1 := ⟨occupancy S r - 1, by omega⟩
    rw [hn1, List.range_succ_eq_map]
    simp only [List.map_cons, List.map_map, Nat.add_sub_cancel, Nat.add_zero]
    congr 1
    · unfold wrap
      rw [if_pos h1]
    · apply List.map_congr_left
      intro i hi
      rw [List.mem_range] at hi
      show r.buffer_.getD (wrap S (r.head_ + (i + 1))) default
        = r.buffer_.getD (wrap S ((if r.head_ + 1 = S then 0 else r.head_ + 1) + i)) default
      congr 1
      unfold wrap
      split <;> split <;> split <;> omega

end SPSCRing

/-! ## Flush lemmas -/

theorem set_fill {α : Type} (A : List α) (m : Nat) (d x : α) :
    (A ++ List.replicate (m + 1) d).set A.length x = (A ++ [x]) ++ List.replicate m d := by
  induction A with
  | nil => simp [List.replicate_succ]
  | cons a A ih => simpa using ih

theorem fill_loop {α : Type} (f : Nat → α) (d : α) (n j : Nat) (hj : j ≤ n) :
    (List.range j).foldl (fun l i => l.set i (f i)) (List.replicate n d)
      = (List.range j).map f ++ List.replicate (n - j) d := by
  induction j with
  | zero => simp
  | succ j ih =>
    rw [List.range_succ, List.foldl_append, ih (by omega)]
    obtain ⟨m, hm⟩ : ∃ m, n - j = m + 1 := ⟨n - j - 1, by omega⟩
    have hlen : ((List.range j).map f).length = j := by simp
    simp only [List.foldl_cons, List.foldl_nil, List.map_append, List.map_cons, List.map_nil]
    rw [hm]
    have h := set_fill ((List.range j).map f) m d (f j)
    rw [hlen] at h
    rw [h]
    congr 2
    omega

theorem fold_fill_slot (b : TickBatch) (L : List Nat) (c : Columns) :
    L.foldl (fun c i => fill_valid b i c) c =
      { times := L.foldl (fun l i => l.set i (b.ticks.getD i default).ts_ns) c.times,
        syms := L.foldl
          (fun l i => l.set i ((symbol_to_str (b.ticks.getD i default).sym_idx).getD ""))
          c.syms,
        prices := L.foldl (fun l i => l.set i (b.ticks.getD i default).price) c.prices,
        sizes := L.foldl (fun l i => l.set i (b.ticks.getD i default).size) c.sizes } := by
  induction L generalizing c with
  | nil => rfl
  | cons i L ih => rw [List.foldl_cons, ih]; rfl

theorem symbol_to_str_lt (n : Nat) (h : n < 5) : ∃ name, symbol_to_str n = some name := by
  interval_cases n <;> exact ⟨_, rfl⟩

theorem symbol_to_str_ge (n : Nat) (h : 5 ≤ n) : symbol_to_str n = none := by
  unfold symbol_to_str
  exact List.getElem?_eq_none (by simpa [names] using h)

theorem fill_slot_valid (b : TickBatch) (i : Nat) (c : Columns)
    (h : (b.ticks.getD i default).sym_idx < 5) : fill_slot b i c = some (fill_valid b i c) := by
  obtain ⟨name, hn⟩ := symbol_to_str_lt _ h
  unfold fill_slot fill_valid
  simp only [hn, Option.getD_some]

theorem fill_slot_invalid (b : TickBatch) (i : Nat) (c : Columns)
    (h : 5 ≤ (b.ticks.getD i default).sym_idx) : fill_slot b i c = none := by
  unfold fill_slot
  simp only [symbol_to_str_ge _ h]

theorem fold_fill_none (b : TickBatch) (L : List Nat) :
    L.foldl (fun c i => c.bind (fill_slot b i)) none = none := by
  induction L with
  | nil => rfl
  | cons i L ih => rw [List.foldl_cons]; exact ih

theorem fold_fill_mem (b : TickBatch) (i : Nat) (hi : ∀ c, fill_slot b i c = none)
    (L : List Nat) (hmem : i ∈ L) (oc : Option Columns) :
    L.foldl (fun c i => c.bind (fill_slot b i)) oc = none := by
  induction L generalizing oc with
  | nil => simp at hmem
  | cons j L ih =>
    rw [List.foldl_cons]
    by_cases hj : i = j
    · subst hj
      have : oc.bind (fill_slot b i) = none := by
        cases oc with
        | none => rfl
        | some c => exact hi c
      rw [this]
      exact fold_fill_none b L
    · have hm : i ∈ L := by
        rcases List.mem_cons.mp hmem with h | h
        · exact absurd h hj
        · exact h
      exact ih hm _

theorem fold_fill_bind (b : TickBatch) (L : List Nat)
    (hv : ∀ i ∈ L, (b.ticks.getD i default).sym_idx < 5) (c : Columns) :
    L.foldl (fun c i => c.bind (fill_slot b i)) (some c)
      = some (L.foldl (fun c i => fill_valid b i c) c) := by
  induction L generalizing c with
  | nil => rfl
  | cons i L ih =>
    rw [List.foldl_cons, List.foldl_cons, Option.some_bind,
      fill_slot_valid b i c (hv i (List.mem_cons_self _ _))]
    exact ih (fun j hj => hv j (List.mem_cons_of_mem _ hj)) _

theorem getD_mem_records (b : TickBatch) (i : Nat) (hi : i < b.count)
    (h : b.count ≤ b.ticks.length) : b.ticks.getD i default ∈ b.records := by
  have hi2 : i < b.ticks.length := by omega
  rw [List.getD_eq_getElem?_getD, List.getElem?_eq_getElem hi2, Option.getD_some]
  unfold TickBatch.records
  rw [List.mem_take_iff_getElem]
  exact ⟨i, by omega, rfl⟩

theorem range_map_getD {α : Type} (l : List Tick) (g : Tick → α) (n : Nat)
    (hn : n ≤ l.length) :
    (List.range n).map (fun i => g (l.getD i default)) = (l.take n).map g := by
  apply List.ext_getElem
  · simp [hn]
  · intro i h1 h2
    simp only [List.length_map, List.length_range] at h1
    simp [List.getD_eq_getElem?_getD, List.getElem?_eq_getElem (show i < l.length by omega)]

/-- When every record has its symbol in the table, the loop of
`send_batch_to_q` fills slot `i` of each vector from record `i`. -/
theorem build_columns_eq (b : TickBatch) (h : b.count ≤ b.ticks.length)
    (hv : ValidSymbols b.records) : build_columns b = some (columns_of b.records) := by
  unfold build_columns TickBatch.size
  rw [fold_fill_bind b _ (fun i hi => hv _ (getD_mem_records b i (List.mem_range.mp hi) h))]
  unfold columns_of TickBatch.records ktn
  rw [fold_fill_slot]
  simp only [fill_loop _ _ _ _ (Nat.le_refl _), Nat.sub_self, List.replicate_zero,
    List.append_nil]
  rw [range_map_getD b.ticks Tick.ts_ns _ h, range_map_getD b.ticks Tick.price _ h,
    range_map_getD b.ticks Tick.size _ h,
    range_map_getD b.ticks (fun t => (symbol_to_str t.sym_idx).getD "") _ h]

/-- When some record has its symbol outside the table, the loop of
`send_batch_to_q` has no defined result. -/
theorem build_columns_none (b : TickBatch) (h : b.count ≤ b.ticks.length)
    (hv : ¬ ValidSymbols b.records) : build_columns b = none := by
  unfold ValidSymbols at hv
  push_neg at hv
  obtain ⟨t, ht, hge⟩ := hv
  unfold TickBatch.records at ht
  rw [List.mem_take_iff_getElem] at ht
  obtain ⟨i, hi, hti⟩ := ht
  have hi1 : i < b.count := by omega
  have hi2 : i < b.ticks.length := by omega
  have hget : b.ticks.getD i default = t := by
    rw [List.getD_eq_getElem?_getD, List.getElem?_eq_getElem hi2, Option.getD_some, hti]
  unfold build_columns TickBatch.size
  exact fold_fill_mem b i (fun c => fill_slot_invalid b i c (by rw [hget]; exact hge)) _
    (List.mem_range.mpr hi1) _

/-! ## Runs of ring calls -/

namespace SPSCRing

variable {T : Type}

theorem live_length [Inhabited T] (S : Nat) (r : SPSCRing T) :
    (live S r).length = occupancy S r := by
  simp [live]

theorem Inv_init [Inhabited T] (k : Nat) : Inv (2 ^ k) (init (2 ^ k) : SPSCRing T) := by
  have h1 : 1 ≤ 2 ^ k := Nat.one_le_two_pow
  exact ⟨h1, h1, by simp [init]⟩

theorem occupancy_init [Inhabited T] (S : Nat) : occupancy S (init S : SPSCRing T) = 0 := by
  simp [occupancy, init, wrap]

theorem live_init [Inhabited T] (S : Nat) : live S (init S : SPSCRing T) = [] := by
  simp [live, occupancy_init]

theorem Good_apply [Inhabited T] (k : Nat) (hk : k < 64) (s : Trace T)
    (hs : Good (2 ^ k) s) (op : Op T) : Good (2 ^ k) (apply (2 ^ k) s op) := by
  obtain ⟨hI, hp⟩ := hs
  cases op with
  | push item =>
    by_cases hroom : occupancy (2 ^ k) s.ring + 1 < 2 ^ k
    · obtain ⟨h1, h2, h3⟩ := try_push_ok k hk s.ring hI item hroom
      rcases hq : try_push (2 ^ k) s.ring item with ⟨b, r⟩
      rw [hq] at h1 h2 h3
      simp only at h1 h2 h3
      subst h1
      simp only [apply, hq]
      exact ⟨h2, by simp only [h3, hp, List.append_assoc]⟩
    · simp only [apply, try_push_full k hk s.ring hI item hroom]
      exact ⟨hI, hp⟩
  | pop =>
    by_cases hocc : occupancy (2 ^ k) s.ring = 0
    · simp only [apply, try_pop_empty _ s.ring hI hocc]
      exact ⟨hI, hp⟩
    · obtain ⟨v, h1, h2, h3⟩ := try_pop_ok k hk s.ring hI hocc
      rcases hq : try_pop (2 ^ k) s.ring with ⟨o, r⟩
      rw [hq] at h1 h2 h3
      simp only at h1 h2 h3
      subst h1
      simp only [apply, hq]
      exact ⟨h2, by simp only [hp, h3, List.append_assoc, List.singleton_append]⟩

theorem Good_foldl [Inhabited T] (k : Nat) (hk : k < 64) (ops : List (Op T)) (s : Trace T)
    (hs : Good (2 ^ k) s) : Good (2 ^ k) (ops.foldl (apply (2 ^ k)) s) := by
  induction ops generalizing s with
  | nil => exact hs
  | cons op ops ih => exact ih _ (Good_apply k hk s hs op)

theorem Good_run [Inhabited T] (k : Nat) (hk : k < 64) (ops : List (Op T)) :
    Good (2 ^ k) (run (2 ^ k) ops) := by
  apply Good_foldl k hk
  exact ⟨Inv_init k, by simp [live_init]⟩

/-- Pushes without pops: the flags returned and the ring afterwards. -/
theorem push_all_spec [Inhabited T] (k : Nat) (hk : k < 64) (xs : List T) :
    ∀ r : SPSCRing T, Inv (2 ^ k) r →
      (push_all (2 ^ k) r xs).1
          = (List.range xs.length).map (fun i => decide (occupancy (2 ^ k) r + i + 1 < 2 ^ k)) ∧
        Inv (2 ^ k) (push_all (2 ^ k) r xs).2 ∧
        live (2 ^ k) (push_all (2 ^ k) r xs).2
          = live (2 ^ k) r ++ xs.take (2 ^ k - 1 - occupancy (2 ^ k) r) := by
  induction xs with
  | nil => intro r hI; simp [push_all, hI]
  | cons x xs ih =>
    intro r hI
    simp only [push_all, List.length_cons, List.range_succ_eq_map, List.map_cons,
      List.map_map]
    by_cases hroom : occupancy (2 ^ k) r + 1 < 2 ^ k
    · obtain ⟨h1, h2, h3⟩ := try_push_ok k hk r hI x hroom
      obtain ⟨i1, i2, i3⟩ := ih _ h2
      have ho : occupancy (2 ^ k) (try_push (2 ^ k) r x).2 = occupancy (2 ^ k) r + 1 := by
        rw [← live_length, h3, List.length_append, live_length]; rfl
      refine ⟨?_, i2, ?_⟩
      · rw [h1, i1, ho]
        simp only [Nat.add_zero, hroom, decide_True, List.cons.injEq, true_and]
        apply List.map_congr_left
        intro i _
        simp only [Function.comp, Nat.succ_eq_add_one]
        congr 1
        apply propext
        constructor <;> intro h <;> omega
      · rw [i3, h3, ho]
        obtain ⟨m, hm⟩ : ∃ m, 2 ^ k - 1 - occupancy (2 ^ k) r = m + 1 :=
          ⟨2 ^ k - 1 - occupancy (2 ^ k) r - 1, by omega⟩
        have hm2 : 2 ^ k - 1 - (occupancy (2 ^ k) r + 1) = m := by omega
        rw [hm, hm2]
        simp
    · rw [try_push_full k hk r hI x hroom]
      obtain ⟨i1, i2, i3⟩ := ih r hI
      refine ⟨?_, i2, ?_⟩
      · rw [i1]
        simp only [Nat.add_zero, hroom, decide_False, List.cons.injEq, true_and]
        apply List.map_congr_left
        intro i _
        simp only [Function.comp, Nat.succ_eq_add_one]
        have e1 : ¬ occupancy (2 ^ k) r + i + 1 < 2 ^ k := by omega
        have e2 : ¬ occupancy (2 ^ k) r + (i + 1) + 1 < 2 ^ k := by omega
        simp [e1, e2]
      · rw [i3]
        have hz : 2 ^ k - 1 - occupancy (2 ^ k) r = 0 := by omega
        simp [hz]

end SPSCRing

/-! ## Batch lemmas -/

theorem push_lt (N : Nat) (b : TickBatch) (t : Tick) (h : b.count < N) :
    b.push N t = { ticks := b.ticks.set b.count t, count := b.count + 1 } := by
  unfold TickBatch.push
  rw [if_pos h]

theorem push_ge (N : Nat) (b : TickBatch) (t : Tick) (h : ¬ b.count < N) :
    b.push N t = b := by
  unfold TickBatch.push
  rw [if_neg h]

theorem push_fold (N : Nat) (rs : List Tick) (h : rs.length ≤ N) :
    (rs.foldl (TickBatch.push N) (TickBatch.init N)).count = rs.length ∧
      (rs.foldl (TickBatch.push N) (TickBatch.init N)).ticks
        = rs ++ List.replicate (N - rs.length) default := by
  induction rs using List.reverseRecOn with
  | nil => simp [TickBatch.init]
  | append_singleton rs t ih =>
    rw [List.length_append, List.length_singleton] at h
    obtain ⟨h1, h2⟩ := ih (by omega)
    rw [List.foldl_append, List.foldl_cons, List.foldl_nil, push_lt _ _ _ (by omega), h1, h2]
    obtain ⟨m, hm⟩ : ∃ m, N - rs.length = m + 1 := ⟨N - rs.length - 1, by omega⟩
    have hm2 : N - (rs.length + 1) = m := by omega
    simp only [hm, hm2, set_fill, List.length_append, List.length_singleton, true_and]

/-! ## Writer lemmas -/

theorem take_set_succ {α : Type} (l : List α) (c : Nat) (t : α) (h : c < l.length) :
    (l.set c t).take (c + 1) = l.take c ++ [t] := by
  rw [List.take_succ, List.set_take, List.set_eq_of_length_le (by simp)]
  simp [h]

theorem send_empty (q_ok : Bool) (b : TickBatch) (h : b.count = 0) :
    send_batch_to_q q_ok b = some (true, none) := by
  unfold send_batch_to_q TickBatch.is_empty
  simp [h]

/-- The three ways a call of `send_batch_to_q` can go. -/
theorem send_cases (q_ok : Bool) (b : TickBatch) :
    (b.count = 0 ∧ send_batch_to_q q_ok b = some (true, none)) ∨
      (b.count ≠ 0 ∧ send_batch_to_q q_ok b = none) ∨
      (b.count ≠ 0 ∧ ∃ cols, send_batch_to_q q_ok b
        = some (q_ok, some { records := b.records, cols := cols, ok := q_ok })) := by
  by_cases h0 : b.count = 0
  · exact Or.inl ⟨h0, send_empty q_ok b h0⟩
  · have hne : (b.count == 0) = false := by simpa using h0
    unfold send_batch_to_q TickBatch.is_empty
    simp only [hne, Bool.false_eq_true, if_false]
    cases hb : build_columns b with
    | none => exact Or.inr (Or.inl ⟨h0, rfl⟩)
    | some cols => exact Or.inr (Or.inr ⟨h0, cols, rfl⟩)

/-- A non-empty batch whose records all have their symbol in the table is
handed to the store, vectors built field by field. -/
theorem send_nonempty (q_ok : Bool) (b : TickBatch) (h : b.count ≠ 0)
    (hle : b.count ≤ b.ticks.length) (hv : ValidSymbols b.records) :
    send_batch_to_q q_ok b
      = some (q_ok, some { records := b.records, cols := columns_of b.records, ok := q_ok }) := by
  have hne : (b.count == 0) = false := by simpa using h
  unfold send_batch_to_q TickBatch.is_empty
  simp only [hne, Bool.false_eq_true, if_false, build_columns_eq b hle hv]

/-- A batch with a record whose symbol is outside the table makes
`send_batch_to_q` fail before the store is called. -/
theorem send_invalid (q_ok : Bool) (b : TickBatch) (h : b.count ≠ 0)
    (hle : b.count ≤ b.ticks.length) (hv : ¬ ValidSymbols b.records) :
    send_batch_to_q q_ok b = none := by
  have hne : (b.count == 0) = false := by simpa using h
  unfold send_batch_to_q TickBatch.is_empty
  simp only [hne, Bool.false_eq_true, if_false, build_columns_none b hle hv]

theorem count_sent_fields (sent : Bool) (batch : TickBatch) (w : WriterState) :
    (count_sent sent batch w).batch = w.batch ∧ (count_sent sent batch w).exited = w.exited ∧
      (count_sent sent batch w).store = w.store ∧
      (count_sent sent batch w).last_flush = w.last_flush ∧
      (count_sent sent batch w).crashed = w.crashed := by
  cases sent <;> simp [count_sent]

theorem delivered_snoc (w : WriterState) (x : StoreWrite) (l : List StoreWrite)
    (h : l = w.store ++ [x]) :
    l.flatMap StoreWrite.records = delivered w ++ x.records := by
  rw [h, List.flatMap_append]
  simp [delivered]

/-- One iteration of the writer loop keeps the ring well formed, keeps the
batch well formed unless the flush crashes, and neither reorders nor repeats a
record. -/
theorem writer_iteration_inv (k : Nat) (hk : k < 64) (N : Nat) (now : Int) (q_ok : Bool)
    (ring : SPSCRing Tick) (w : WriterState)
    (hI : SPSCRing.Inv (2 ^ k) ring) (hB : BatchOk N w.batch) :
    SPSCRing.Inv (2 ^ k) (writer_iteration (2 ^ k) N now q_ok ring w).1 ∧
      ((writer_iteration (2 ^ k) N now q_ok ring w).2.crashed = true ∨
        BatchOk N (writer_iteration (2 ^ k) N now q_ok ring w).2.batch) ∧
      (writer_iteration (2 ^ k) N now q_ok ring w).2.exited = w.exited ∧
      (delivered (writer_iteration (2 ^ k) N now q_ok ring w).2
          ++ (writer_iteration (2 ^ k) N now q_ok ring w).2.batch.records
          ++ SPSCRing.live (2 ^ k) (writer_iteration (2 ^ k) N now q_ok ring w).1).Sublist
        (delivered w ++ w.batch.records ++ SPSCRing.live (2 ^ k) ring) := by
  obtain ⟨hlen, hcnt⟩ := hB
  by_cases hocc : SPSCRing.occupancy (2 ^ k) ring = 0
  · have hpop := SPSCRing.try_pop_empty _ ring hI hocc
    by_cases hc : (!w.batch.is_empty && decide (now - w.last_flush > flush_timeout)) = true
    · rcases send_cases q_ok w.batch with ⟨h0, hs⟩ | ⟨_, hs⟩ | ⟨_, cols, hs⟩
      · simp [TickBatch.is_empty, h0] at hc
      · simp only [writer_iteration, hpop, hc, if_true, hs]
        exact ⟨hI, Or.inl trivial, trivial, List.Sublist.refl _⟩
      · simp only [writer_iteration, hpop, hc, if_true, hs, Option.toList_some]
        refine ⟨hI, Or.inr ⟨hlen, Or.inr rfl⟩, (count_sent_fields _ _ _).2.1, ?_⟩
        simp [delivered, TickBatch.records, TickBatch.clear]
    · simp only [writer_iteration, hpop, hc]
      exact ⟨hI, Or.inr ⟨hlen, hcnt⟩, rfl, List.Sublist.refl _⟩
  · obtain ⟨v, h1, h2, h3⟩ := SPSCRing.try_pop_ok k hk ring hI hocc
    rcases hq : SPSCRing.try_pop (2 ^ k) ring with ⟨o, r⟩
    rw [hq] at h1 h2 h3
    simp only at h1 h2 h3
    subst h1
    by_cases hlt : w.batch.count < N
    · have hp := push_lt N w.batch v hlt
      have hrec : (w.batch.push N v).records = w.batch.records ++ [v] := by
        rw [hp]
        exact take_set_succ _ _ _ (by omega)
      have hl2 : (w.batch.push N v).ticks.length = N := by
        rw [hp]; simp [hlen]
      have hc2 : (w.batch.push N v).count = w.batch.count + 1 := by rw [hp]
      by_cases hfull : (w.batch.push N v).is_full N = true
      · rcases send_cases q_ok (w.batch.push N v) with ⟨h0, _⟩ | ⟨_, hs⟩ | ⟨_, cols, hs⟩
        · omega
        · simp only [writer_iteration, hq, hfull, if_true, hs]
          refine ⟨h2, Or.inl trivial, trivial, ?_⟩
          simp only [delivered, hrec, h3]
          simp
        · simp only [writer_iteration, hq, hfull, if_true, hs, Option.toList_some]
          refine ⟨h2, Or.inr ⟨hl2, Or.inr rfl⟩, (count_sent_fields _ _ _).2.1, ?_⟩
          simp [delivered, TickBatch.records, TickBatch.clear, h3]
          have := hrec
          simp only [TickBatch.records] at this
          rw [this]
          simp
      · have hf : (w.batch.push N v).is_full N = false := by simpa using hfull
        simp only [writer_iteration, hq, hf, Bool.false_eq_true, if_false]
        refine ⟨h2, Or.inr ⟨hl2, Or.inl ?_⟩, trivial, ?_⟩
        · simp only [TickBatch.is_full, decide_eq_false_iff_not] at hf
          omega
        · simp only [delivered, hrec, h3]
          simp
    · have hp := push_ge N w.batch v hlt
      have h0 : w.batch.count = 0 := by
        rcases hcnt with h | h
        · exact absurd h hlt
        · exact h
      have hfull : w.batch.is_full N = true := by
        simp only [TickBatch.is_full, decide_eq_true_eq]
        omega
      simp only [writer_iteration, hq, hp, hfull, if_true, send_empty q_ok w.batch h0,
        Option.toList_none, List.append_nil]
      refine ⟨h2, Or.inr ⟨hlen, Or.inr rfl⟩, (count_sent_fields _ _ _).2.1, ?_⟩
      simp [delivered, TickBatch.records, TickBatch.clear, h3, h0, count_sent]

/-! ## Bridge lemmas -/

theorem writer_final_spec (q_ok : Bool) (w : WriterState) :
    (writer_final q_ok w).exited = true ∧ (writer_final q_ok w).batch = w.batch ∧
      (delivered (writer_final q_ok w)).Sublist (delivered w ++ w.batch.records) ∧
      ((writer_final q_ok w).crashed = true ∨ (writer_final q_ok w).crashed = w.crashed) := by
  rcases send_cases q_ok w.batch with ⟨h0, _⟩ | ⟨h0, hs⟩ | ⟨h0, cols, hs⟩
  · simp [writer_final, TickBatch.is_empty, h0, delivered]
  · have hne : (w.batch.count == 0) = false := by simpa using h0
    simp [writer_final, TickBatch.is_empty, hne, hs, delivered]
  · have hne : (w.batch.count == 0) = false := by simpa using h0
    simp [writer_final, TickBatch.is_empty, hne, hs, delivered]

/-- The final flush of a non-empty batch whose records all have their symbol in
the table makes one store call. -/
theorem writer_final_valid (q_ok : Bool) (w : WriterState) (h0 : w.batch.count ≠ 0)
    (hle : w.batch.count ≤ w.batch.ticks.length) (hv : ValidSymbols w.batch.records) :
    (writer_final q_ok w).store
        = w.store ++ [{ records := w.batch.records, cols := columns_of w.batch.records,
                        ok := q_ok }] ∧
      (writer_final q_ok w).crashed = w.crashed := by
  have hne : (w.batch.count == 0) = false := by simpa using h0
  simp [writer_final, TickBatch.is_empty, hne, send_nonempty q_ok w.batch h0 hle hv]

theorem writer_final_empty (q_ok : Bool) (w : WriterState) (h0 : w.batch.count = 0) :
    (writer_final q_ok w).store = w.store ∧ (writer_final q_ok w).crashed = w.crashed := by
  simp [writer_final, TickBatch.is_empty, h0]

/-- Every step of the bridge keeps `BridgeInv`. -/
theorem step_inv (k : Nat) (hk : k < 64) (N : Nat) (U : List Tick) (b : Bridge) (e : Event)
    (h : BridgeInv (2 ^ k) N U b) :
    BridgeInv (2 ^ k) N (U ++ (Event.tick e).toList) (step (2 ^ k) N b e) := by
  obtain ⟨hI, hB, hS⟩ := h
  have hweak : ∀ l : List Tick,
      (delivered b.writer ++ pending b.writer ++ SPSCRing.live (2 ^ k) b.ring).Sublist (U ++ l) :=
    fun l => hS.trans (List.sublist_append_left _ _)
  cases e with
  | signal =>
    simp only [step, Event.tick, Option.toList_none, List.append_nil]
    exact ⟨hI, hB, hS⟩
  | reader msg =>
    cases hex : b.reader.exited with
    | true =>
      simp only [step, hex, if_true]
      exact ⟨hI, hB, hweak _⟩
    | false =>
      cases hr : b.running with
      | false =>
        simp only [step, hex, hr, Bool.false_eq_true, if_false]
        exact ⟨hI, hB, hweak _⟩
      | true =>
        simp only [step, hex, hr, Bool.false_eq_true, if_false, if_true]
        cases msg with
        | none =>
          simp only [reader_iteration]
          exact ⟨hI, hB, hweak _⟩
        | some m =>
          cases hd : decode_message m with
          | none =>
            simp only [reader_iteration, hd]
            exact ⟨hI, hB, hweak _⟩
          | some t =>
            by_cases hroom : SPSCRing.occupancy (2 ^ k) b.ring + 1 < 2 ^ k
            · obtain ⟨h1, h2, h3⟩ := SPSCRing.try_push_ok k hk b.ring hI t hroom
              rcases hq : SPSCRing.try_push (2 ^ k) b.ring t with ⟨f, r⟩
              rw [hq] at h1 h2 h3
              simp only at h1 h2 h3
              subst h1
              simp only [reader_iteration, hd, hq, Event.tick, Option.toList_some]
              refine ⟨h2, hB, ?_⟩
              show (delivered b.writer ++ pending b.writer ++ SPSCRing.live (2 ^ k) r).Sublist
                (U ++ [t])
              rw [h3, ← List.append_assoc]
              exact List.Sublist.append hS (List.Sublist.refl _)
            · simp only [reader_iteration, hd, SPSCRing.try_push_full k hk b.ring hI t hroom]
              exact ⟨hI, hB, hweak _⟩
  | writer now q_ok =>
    simp only [Event.tick, Option.toList_none, List.append_nil]
    cases hex : b.writer.exited with
    | true =>
      simp only [step, hex, if_true]
      exact ⟨hI, hB, hS⟩
    | false =>
      cases hcr : b.writer.crashed with
      | true =>
        simp only [step, hex, hcr, Bool.false_eq_true, if_false, if_true]
        exact ⟨hI, hB, hS⟩
      | false =>
        have hBok : BatchOk N b.writer.batch := by
          rcases hB with h | h
          · rw [hcr] at h; exact absurd h (by decide)
          · exact h
        have hpend : pending b.writer = b.writer.batch.records := by
          simp [pending, hex]
        rw [hpend] at hS
        cases hr : b.running with
        | false =>
          simp only [step, hex, hcr, hr, Bool.false_eq_true, if_false]
          obtain ⟨f1, f2, f3, _⟩ := writer_final_spec q_ok b.writer
          refine ⟨hI, Or.inr (by rw [f2]; exact hBok), ?_⟩
          show (delivered (writer_final q_ok b.writer) ++ pending (writer_final q_ok b.writer)
            ++ SPSCRing.live (2 ^ k) b.ring).Sublist U
          have hp2 : pending (writer_final q_ok b.writer) = [] := by simp [pending, f1]
          rw [hp2, List.append_nil]
          exact (List.Sublist.append f3 (List.Sublist.refl _)).trans hS
        | true =>
          simp only [step, hex, hcr, hr, Bool.false_eq_true, if_false, if_true]
          obtain ⟨g1, g2, g3, g4⟩ :=
            writer_iteration_inv k hk N now q_ok b.ring b.writer hI hBok
          refine ⟨g1, g2, ?_⟩
          show (delivered (writer_iteration (2 ^ k) N now q_ok b.ring b.writer).2
            ++ pending (writer_iteration (2 ^ k) N now q_ok b.ring b.writer).2
            ++ SPSCRing.live (2 ^ k)
                (writer_iteration (2 ^ k) N now q_ok b.ring b.writer).1).Sublist U
          have hp2 : pending (writer_iteration (2 ^ k) N now q_ok b.ring b.writer).2
              = (writer_iteration (2 ^ k) N now q_ok b.ring b.writer).2.batch.records := by
            simp [pending, g3, hex]
          rw [hp2]
          exact g4.trans hS

theorem BridgeInv_init (k N : Nat) (t0 : Int) : BridgeInv (2 ^ k) N [] (Bridge.init (2 ^ k) N t0) := by
  refine ⟨SPSCRing.Inv_init k, Or.inr ⟨by simp [Bridge.init, TickBatch.init], Or.inr rfl⟩, ?_⟩
  simp [Bridge.init, delivered, pending, TickBatch.init, TickBatch.records, SPSCRing.live_init]

/-- Every run of the bridge keeps `BridgeInv` for the ticks sent upstream. -/
theorem run_inv (k : Nat) (hk : k < 64) (N : Nat) (t0 : Int) (evs : List Event) :
    BridgeInv (2 ^ k) N (upstream evs) (run_bridge (2 ^ k) N t0 evs) := by
  induction evs using List.reverseRecOn with
  | nil => exact BridgeInv_init k N t0
  | append_singleton evs e ih =>
    have h := step_inv k hk N _ _ e ih
    have hu : upstream (evs ++ [e]) = upstream evs ++ (Event.tick e).toList := by
      unfold upstream
      rw [List.filterMap_append]
      cases he : Event.tick e <;> simp [he]
    have hr : run_bridge (2 ^ k) N t0 (evs ++ [e])
        = step (2 ^ k) N (run_bridge (2 ^ k) N t0 evs) e := by
      unfold run_bridge
      rw [List.foldl_append]
      rfl
    rw [hu, hr]
    exact h

theorem step_writer_exited (SIZE N : Nat) (b : Bridge) (e : Event)
    (h : b.writer.exited = true) : (step SIZE N b e).writer = b.writer := by
  cases e with
  | signal => rfl
  | reader msg =>
    simp only [step]
    split
    · rfl
    · split <;> rfl
  | writer now q_ok => simp only [step, h, if_true]

theorem run_writer_exited (SIZE N : Nat) (evs : List Event) (b : Bridge)
    (h : b.writer.exited = true) : (evs.foldl (step SIZE N) b).writer = b.writer := by
  induction evs generalizing b with
  | nil => rfl
  | cons e evs ih =>
    have h1 := step_writer_exited SIZE N b e h
    rw [List.foldl_cons, ih (step SIZE N b e) (by rw [h1]; exact h), h1]

/-! ## Capacity check lemmas -/

theorem and_even (m : Nat) (hm : 1 ≤ m) : (2 * m) &&& (2 * m - 1) = 2 * (m &&& (m - 1)) := by
  have h1 : 2 * m = Nat.bit false m := by simp [Nat.bit_val]
  have h2 : 2 * m - 1 = Nat.bit true (m - 1) := by simp [Nat.bit_val]; omega
  rw [h2, h1, Nat.land_bit]
  simp [Nat.bit_val]

theorem and_odd (m : Nat) : (2 * m + 1) &&& (2 * m + 1 - 1) = 2 * m := by
  have h1 : 2 * m + 1 = Nat.bit true m := by simp [Nat.bit_val]
  have h2 : 2 * m + 1 - 1 = Nat.bit false m := by simp [Nat.bit_val]
  rw [h2, h1, Nat.land_bit]
  simp [Nat.bit_val]

/-- `n & (n - 1)` is zero exactly for zero and for the powers of two. -/
theorem and_pred_eq_zero (n : Nat) : n &&& (n - 1) = 0 ↔ n = 0 ∨ ∃ k, n = 2 ^ k := by
  induction n using Nat.strong_induction_on with
  | _ n ih =>
    rcases Nat.even_or_odd' n with ⟨m, hm | hm⟩
    · by_cases h0 : m = 0
      · subst h0; simp [hm]
      · subst hm
        rw [and_even m (by omega)]
        have ihm := ih m (by omega)
        constructor
        · intro h
          have h2 : m &&& (m - 1) = 0 := by omega
          rcases ihm.1 h2 with h3 | ⟨k, hk⟩
          · exact absurd h3 h0
          · exact Or.inr ⟨k + 1, by rw [hk, Nat.pow_succ]; omega⟩
        · intro h
          rcases h with h | ⟨k, hk⟩
          · omega
          · cases k with
            | zero => omega
            | succ k =>
              have hmk : m = 2 ^ k := by rw [Nat.pow_succ] at hk; omega
              have := ihm.2 (Or.inr ⟨k, hmk⟩)
              omega
    · subst hm
      rw [and_odd m]
      constructor
      · intro h
        have hm0 : m = 0 := by omega
        exact Or.inr ⟨0, by simp [hm0]⟩
      · intro h
        rcases h with h | ⟨k, hk⟩
        · omega
        · cases k with
          | zero => simp at hk; omega
          | succ k => rw [Nat.pow_succ] at hk; omega

theorem MASK_pos (SIZE : Nat) (h1 : 1 ≤ SIZE) (h2 : SIZE < WORD) :
    SPSCRing.MASK SIZE = SIZE - 1 := by
  unfold SPSCRing.MASK WORD at *
  omega

/-! ## Occupancy lemmas -/

/-- With no call in progress `approx_size()` is the number of live records. -/
theorem approx_size_eq {T : Type} (k : Nat) (hk : k < 64) (r : SPSCRing T)
    (hI : SPSCRing.Inv (2 ^ k) r) :
    SPSCRing.approx_size (2 ^ k) r = SPSCRing.occupancy (2 ^ k) r := by
  obtain ⟨h1, h2, _⟩ := hI
  have hW : WORD = 2 ^ k * (2 ^ (64 - k) - 1) + 2 ^ k := by
    have hq : 1 ≤ 2 ^ (64 - k) := Nat.one_le_two_pow
    have hp : 2 ^ k * 2 ^ (64 - k) = 2 ^ 64 := by
      rw [← Nat.pow_add]; congr 1; omega
    have hm : 2 ^ k * (2 ^ (64 - k) - 1) = 2 ^ k * 2 ^ (64 - k) - 2 ^ k := by
      rw [Nat.mul_sub, Nat.mul_one]
    have hge : 2 ^ k ≤ 2 ^ k * 2 ^ (64 - k) := Nat.le_mul_of_pos_right _ hq
    unfold WORD
    omega
  unfold SPSCRing.approx_size SPSCRing.occupancy SPSCRing.wrap
  rw [SPSCRing.MASK_pow k hk, Nat.and_pow_two_sub_one_eq_mod]
  generalize 2 ^ (64 - k) - 1 = Q at hW
  generalize 2 ^ k = S at *
  obtain ⟨Y, hY⟩ : ∃ Y, Y = S * Q := ⟨_, rfl⟩
  rw [← hY] at hW
  by_cases hle : r.head_ ≤ r.tail_
  · have e1 : (r.tail_ + WORD - r.head_) % WORD = r.tail_ - r.head_ := by
      have : r.tail_ + WORD - r.head_ = (r.tail_ - r.head_) + WORD := by omega
      rw [this, Nat.add_mod_right]
      exact Nat.mod_eq_of_lt (by omega)
    rw [e1, Nat.mod_eq_of_lt (by omega)]
    split <;> omega
  · have e1 : (r.tail_ + WORD - r.head_) % WORD = r.tail_ + WORD - r.head_ :=
      Nat.mod_eq_of_lt (by omega)
    have e2 : r.tail_ + WORD - r.head_ = (r.tail_ + S - r.head_) + Y := by omega
    rw [e1, e2, hY, Nat.add_mul_mod_self_left, Nat.mod_eq_of_lt (by omega)]
    split <;> omega

theorem occupancy_zero_iff {T : Type} (S : Nat) (r : SPSCRing T) (hI : SPSCRing.Inv S r) :
    SPSCRing.occupancy S r = 0 ↔ r.head_ = r.tail_ := by
  obtain ⟨h1, h2, _⟩ := hI
  unfold SPSCRing.occupancy SPSCRing.wrap
  split <;> omega

theorem static_assert_SIZE_iff (SIZE : Nat) (h : SIZE < WORD) :
    SPSCRing.static_assert_SIZE SIZE = true ↔ SIZE = 0 ∨ ∃ k, SIZE = 2 ^ k := by
  unfold SPSCRing.static_assert_SIZE
  rw [beq_iff_eq]
  by_cases h0 : SIZE = 0
  · subst h0; simp
  · rw [MASK_pos SIZE (by omega) h]
    exact and_pred_eq_zero SIZE

theorem batch_run_inv (N : Nat) (ops : List BatchOp) :
    (TickBatch.run N ops).count ≤ N ∧ (TickBatch.run N ops).ticks.length = N := by
  induction ops using List.reverseRecOn with
  | nil => simp [TickBatch.run, TickBatch.init]
  | append_singleton ops op ih =>
    obtain ⟨h1, h2⟩ := ih
    have hr : TickBatch.run N (ops ++ [op]) = (TickBatch.run N ops).apply N op := by
      unfold TickBatch.run
      rw [List.foldl_append]
      rfl
    rw [hr]
    cases op with
    | push t =>
      by_cases hlt : (TickBatch.run N ops).count < N
      · simp only [TickBatch.apply, push_lt N _ t hlt, List.length_set]
        exact ⟨hlt, h2⟩
      · simp only [TickBatch.apply, push_ge N _ t hlt]
        exact ⟨h1, h2⟩
    | clear =>
      simp only [TickBatch.apply, TickBatch.clear]
      exact ⟨Nat.zero_le _, h2⟩

/-! ## Reader lemmas -/

theorem bytes_le_le_bytes (l : List Nat) (h : ∀ b ∈ l, b < 256) :
    bytes_le l.length (le_bytes l) = l := by
  induction l with
  | nil => rfl
  | cons b bs ih =>
    have hb : b < 256 := h b (List.mem_cons_self _ _)
    have e1 : (b % 256 + 256 * le_bytes bs) % 256 = b := by omega
    have e2 : (b % 256 + 256 * le_bytes bs) / 256 = le_bytes bs := by omega
    simp only [List.length_cons, le_bytes, bytes_le, e1, e2]
    rw [ih (fun x hx => h x (List.mem_cons_of_mem _ hx))]

theorem bytes_le_field (str : List Nat) (off len : Nat) (hlen : off + len ≤ str.length)
    (h : ∀ b ∈ str, b < 256) :
    bytes_le len (field str off len) = (str.drop off).take len := by
  have hl : ((str.drop off).take len).length = len := by
    simp only [List.length_take, List.length_drop]; omega
  have hb : ∀ b ∈ (str.drop off).take len, b < 256 :=
    fun b hb => h b (List.mem_of_mem_drop (List.mem_of_mem_take hb))
  have := bytes_le_le_bytes _ hb
  rw [hl] at this
  exact this

/-- Copying 32 bytes into a `Tick` and reading the bytes of that `Tick` gives the
32 bytes back. -/
theorem bytes_of_memcpy (str : List Nat) (hlen : str.length = 32)
    (h : ∀ b ∈ str, b < 256) : bytes_of_Tick (memcpy_Tick str) = str := by
  unfold bytes_of_Tick memcpy_Tick
  simp only
  rw [bytes_le_field str 0 8 (by omega) h, bytes_le_field str 8 4 (by omega) h,
    bytes_le_field str 12 4 (by omega) h, bytes_le_field str 16 8 (by omega) h,
    bytes_le_field str 24 8 (by omega) h]
  have h5 : (str.drop 24).take 8 = str.drop 24 :=
    List.take_of_length_le (by simp only [List.length_drop]; omega)
  have d4 : str.drop 16 = (str.drop 16).take 8 ++ str.drop 24 := by
    have := (List.take_append_drop 8 (str.drop 16)).symm
    simpa only [List.drop_drop, Nat.reduceAdd] using this
  have d3 : str.drop 12 = (str.drop 12).take 4 ++ str.drop 16 := by
    have := (List.take_append_drop 4 (str.drop 12)).symm
    simpa only [List.drop_drop, Nat.reduceAdd] using this
  have d2 : str.drop 8 = (str.drop 8).take 4 ++ str.drop 12 := by
    have := (List.take_append_drop 4 (str.drop 8)).symm
    simpa only [List.drop_drop, Nat.reduceAdd] using this
  have d1 : str = (str.drop 0).take 8 ++ str.drop 8 := by
    simp
  rw [h5, ← d4, ← d3, ← d2, ← d1]

theorem decode_wellformed (m : RedisReply) (e0 e1 data : ReplyElement)
    (h1 : m.type = ReplyType.array) (h2 : m.element = [e0, e1, data])
    (h3 : data.type = ReplyType.string) (h4 : data.str.length = 32) :
    decode_message m = some (memcpy_Tick data.str) := by
  simp [decode_message, RedisReply.elements, ReplyElement.len, sizeof_Tick, h1, h2, h3, h4]

theorem decode_none_iff (m : RedisReply) : decode_message m = none ↔ ¬ WellFormed m := by
  constructor
  · intro h hw
    obtain ⟨h1, e0, e1, data, h2, h3, h4⟩ := hw
    rw [decode_wellformed m e0 e1 data h1 h2 h3 h4] at h
    simp at h
  · intro h
    by_contra hne
    apply h
    unfold decode_message at hne
    split at hne
    · next hc =>
      obtain ⟨hc1, hc2⟩ := hc
      split at hne
      · next data hd =>
        split at hne
        · next hs =>
          refine ⟨hc1, ?_⟩
          unfold RedisReply.elements at hc2
          match hm : m.element, hc2 with
          | [a, b, c], _ =>
            rw [hm] at hd
            simp at hd
            subst hd
            exact ⟨a, b, c, rfl, hs.1, hs.2⟩
        · exact absurd rfl hne
      · exact absurd rfl hne
    · exact absurd rfl hne

/-- The reader loop body on a reply: nothing when the reply fails the checks,
one `try_push` of the decoded tick and one counter update otherwise. -/
theorem reader_iteration_eq (SIZE : Nat) (m : RedisReply) (ring : SPSCRing Tick)
    (st : ReaderState) :
    reader_iteration SIZE (some m) ring st =
      match decode_message m with
      | none => (ring, st)
      | some tick =>
        ((SPSCRing.try_push SIZE ring tick).2,
          count_push (SPSCRing.try_push SIZE ring tick).1 st) := by
  cases hd : decode_message m with
  | none => simp only [reader_iteration, hd]
  | some tick =>
    simp only [reader_iteration, hd]
    rcases hq : SPSCRing.try_push SIZE ring tick with ⟨f, r⟩
    cases f <;> simp [count_push]

theorem try_push_refused {T : Type} (SIZE : Nat) (r : SPSCRing T) (item : T)
    (hfull : ((r.tail_ + 1) % WORD) &&& SPSCRing.MASK SIZE = r.head_) :
    SPSCRing.try_push SIZE r item = (false, r) := by
  simp [SPSCRing.try_push, hfull]

/-- Pushes against a full ring with no pop in between: every tick is dropped. -/
theorem reader_run_full (SIZE : Nat) (ring : SPSCRing Tick)
    (hfull : ((ring.tail_ + 1) % WORD) &&& SPSCRing.MASK SIZE = ring.head_)
    (ms : List RedisReply) (hwf : ∀ m ∈ ms, decode_message m ≠ none) :
    ∀ st : ReaderState, st.drops < WORD →
      reader_run SIZE ms ring st
        = (ring, { st with drops := (st.drops + ms.length) % WORD }) := by
  induction ms with
  | nil =>
    intro st hst
    simp [reader_run, Nat.mod_eq_of_lt hst]
  | cons m ms ih =>
    intro st hst
    have hm : decode_message m ≠ none := hwf m (List.mem_cons_self _ _)
    obtain ⟨tick, ht⟩ := Option.ne_none_iff_exists'.mp hm
    have h1 : reader_iteration SIZE (some m) ring st
        = (ring, { st with drops := (st.drops + 1) % WORD }) := by
      rw [reader_iteration_eq, ht]
      simp [try_push_refused SIZE ring tick hfull, count_push]
    have h2 : reader_run SIZE (m :: ms) ring st
        = reader_run SIZE ms ring { st with drops := (st.drops + 1) % WORD } := by
      simp only [reader_run, List.foldl_cons, h1]
    rw [h2, ih (fun x hx => hwf x (List.mem_cons_of_mem _ hx)) _ (Nat.mod_lt _ (by decide))]
    simp only [List.length_cons]
    congr 2
    unfold WORD
    omega

theorem step_reader_count (SIZE N : Nat) (U : List Tick) (b : Bridge) (e : Event)
    (h : ReaderCount U b) (h1 : e ≠ Event.signal) (h2 : e ≠ Event.reader none) :
    ReaderCount (U ++ (Event.tick e).toList) (step SIZE N b e) := by
  obtain ⟨hr, hex, a, d, ha, hd, hsum⟩ := h
  cases e with
  | signal => exact absurd rfl h1
  | reader msg =>
    cases msg with
    | none => exact absurd rfl h2
    | some m =>
      simp only [step, hex, hr, Bool.false_eq_true, if_false, if_true, reader_iteration_eq,
        Event.tick]
      cases hdm : decode_message m with
      | none =>
        simp only [Option.toList_none, List.append_nil]
        exact ⟨rfl, hex, a, d, ha, hd, hsum⟩
      | some tick =>
        simp only [Option.toList_some, List.length_append, List.length_singleton]
        cases hf : (SPSCRing.try_push SIZE b.ring tick).1 with
        | true =>
          refine ⟨rfl, by simpa [count_push] using hex, a + 1, d, ?_, by simpa [count_push] using hd, ?_⟩
          · simp only [count_push, if_true]
            rw [ha]
            unfold WORD
            omega
          · simp only [List.length_append, List.length_singleton]
            omega
        | false =>
          refine ⟨rfl, by simpa [count_push] using hex, a, d + 1, by simpa [count_push] using ha, ?_, ?_⟩
          · simp only [count_push, Bool.false_eq_true, if_false]
            rw [hd]
            unfold WORD
            omega
          · simp only [List.length_append, List.length_singleton]
            omega
  | writer now q_ok =>
    simp only [Event.tick, Option.toList_none, List.append_nil, step, hr, if_true]
    split
    · exact ⟨hr, hex, a, d, ha, hd, hsum⟩
    · split
      · exact ⟨hr, hex, a, d, ha, hd, hsum⟩
      · exact ⟨rfl, hex, a, d, ha, hd, hsum⟩

/-- While the reader stays in its loop its two counters account for every
push attempt. -/
theorem run_reader_count (SIZE N : Nat) (t0 : Int) (evs : List Event)
    (hlive : ∀ e ∈ evs, e ≠ Event.signal ∧ e ≠ Event.reader none) :
    ReaderCount (upstream evs) (run_bridge SIZE N t0 evs) := by
  induction evs using List.reverseRecOn with
  | nil => exact ⟨rfl, rfl, 0, 0, rfl, rfl, rfl⟩
  | append_singleton evs e ih =>
    have he := hlive e (by simp)
    have h := step_reader_count SIZE N _ _ e
      (ih (fun x hx => hlive x (List.mem_append_left _ hx))) he.1 he.2
    have hu : upstream (evs ++ [e]) = upstream evs ++ (Event.tick e).toList := by
      unfold upstream
      rw [List.filterMap_append]
      cases he : Event.tick e <;> simp [he]
    have hr : run_bridge SIZE N t0 (evs ++ [e]) = step SIZE N (run_bridge SIZE N t0 evs) e := by
      unfold run_bridge
      rw [List.foldl_append]
      rfl
    rw [hu, hr]
    exact h

/-! ## Flushes of batches whose symbols are all in the table -/

/-- For a batch of capacity N holding k records, 1 <= k <= N, all with a
symbol index below 5, `send_batch_to_q` makes one store call with four vectors
of length exactly k whose slot i holds the timestamp, the display name of the
symbol index, the price and the size of record i; the vectors are the same
for any other batch with the same count and the same first k slots. -/
theorem flush_valid (N : Nat) (q_ok : Bool) (b : TickBatch)
    (hlen : b.ticks.length = N) (h1 : 1 ≤ b.count) (hN : b.count ≤ N)
    (hv : ValidSymbols b.records) :
    ∃ cols, send_batch_to_q q_ok b
        = some (q_ok, some { records := b.records, cols := cols, ok := q_ok }) ∧
      cols.times.length = b.count ∧ cols.syms.length = b.count ∧
      cols.prices.length = b.count ∧ cols.sizes.length = b.count ∧
      (∀ i, i < b.count → ∃ t name, b.ticks[i]? = some t ∧
        symbol_to_str t.sym_idx = some name ∧
        cols.times[i]? = some t.ts_ns ∧
        cols.syms[i]? = some name ∧
        cols.prices[i]? = some t.price ∧
        cols.sizes[i]? = some t.size) ∧
      (∀ b2 : TickBatch, b2.count = b.count →
        b2.ticks.take b.count = b.ticks.take b.count → build_columns b2 = some cols) := by
  have hle : b.count ≤ b.ticks.length := by omega
  have hrl : b.records.length = b.count := by
    simp [TickBatch.records, hle]
  refine ⟨columns_of b.records, send_nonempty q_ok b (by omega) hle hv,
    by simp [columns_of, hrl], by simp [columns_of, hrl], by simp [columns_of, hrl],
    by simp [columns_of, hrl], ?_, ?_⟩
  · intro i hi
    have hi2 : i < b.ticks.length := by omega
    have hmem : b.ticks[i] ∈ b.records := by
      have := getD_mem_records b i hi hle
      rwa [List.getD_eq_getElem?_getD, List.getElem?_eq_getElem hi2, Option.getD_some] at this
    obtain ⟨name, hname⟩ := symbol_to_str_lt _ (hv _ hmem)
    refine ⟨b.ticks[i], name, List.getElem?_eq_getElem hi2, hname, ?_⟩
    have hr : b.records[i]? = some b.ticks[i] := by
      simp [TickBatch.records, List.getElem?_take, hi, List.getElem?_eq_getElem hi2]
    simp [columns_of, List.getElem?_map, hr, hname]
  · intro b2 hc ht
    have hle2 : b2.count ≤ b2.ticks.length := by
      have hl := congrArg List.length ht
      simp only [List.length_take] at hl
      omega
    have hrec : b2.records = b.records := by
      unfold TickBatch.records
      rw [hc, ht]
    rw [build_columns_eq b2 hle2 (by rw [hrec]; exact hv), hrec]

/-- An iteration of the writer loop that finds the ring empty, with a batch of
at least one record, all with a symbol index below 5, and (now - last_flush)
greater than flush_timeout, makes exactly one store call, built from the live
records of the batch, resets the count to zero and sets last_flush to now. -/
theorem timeout_flush_valid (SIZE N : Nat) (now : Int) (q_ok : Bool) (ring : SPSCRing Tick)
    (w : WriterState) (hempty : ring.head_ = ring.tail_) (h1 : 1 ≤ w.batch.count)
    (hle : w.batch.count ≤ w.batch.ticks.length) (hv : ValidSymbols w.batch.records)
    (ht : now - w.last_flush > flush_timeout) :
    (writer_iteration SIZE N now q_ok ring w).2.store
        = w.store ++ [{ records := w.batch.records, cols := columns_of w.batch.records,
                        ok := q_ok }] ∧
      (writer_iteration SIZE N now q_ok ring w).2.batch.count = 0 ∧
      (writer_iteration SIZE N now q_ok ring w).2.batch.ticks = w.batch.ticks ∧
      (writer_iteration SIZE N now q_ok ring w).2.last_flush = now ∧
      (writer_iteration SIZE N now q_ok ring w).2.crashed = w.crashed ∧
      (writer_iteration SIZE N now q_ok ring w).1 = ring := by
  have hpop : SPSCRing.try_pop SIZE ring = (none, ring) := by
    simp [SPSCRing.try_pop, hempty]
  have hne : w.batch.count ≠ 0 := by omega
  have hc : (!w.batch.is_empty && decide (now - w.last_flush > flush_timeout)) = true := by
    have hb : (w.batch.count == 0) = false := by simpa using hne
    simp [TickBatch.is_empty, hb, ht]
  simp only [writer_iteration, hpop, hc, if_true, send_nonempty q_ok w.batch hne hle hv,
    Option.toList_some]
  exact ⟨trivial, rfl, rfl, trivial, (count_sent_fields _ _ _).2.2.2.2, trivial⟩

/-- An iteration of the writer loop that finds the ring empty, with an empty
batch or with (now - last_flush) not greater than flush_timeout, makes no store
call and leaves the writer and the ring as they were. -/
theorem timeout_no_flush (SIZE N : Nat) (now : Int) (q_ok : Bool) (ring : SPSCRing Tick)
    (w : WriterState) (hempty : ring.head_ = ring.tail_)
    (h : w.batch.count = 0 ∨ now - w.last_flush ≤ flush_timeout) :
    writer_iteration SIZE N now q_ok ring w = (ring, w) := by
  have hpop : SPSCRing.try_pop SIZE ring = (none, ring) := by
    simp [SPSCRing.try_pop, hempty]
  have hc : (!w.batch.is_empty && decide (now - w.last_flush > flush_timeout)) = false := by
    rcases h with h | h
    · simp [TickBatch.is_empty, h]
    · have : ¬ now - w.last_flush > flush_timeout := by omega
      simp [this]
  simp only [writer_iteration, hpop, hc, Bool.false_eq_true, if_false]

/-- When the writer evaluates its loop test after the shutdown flag was
cleared, it leaves the loop; with a non-empty batch whose records all have a
symbol index below 5 it makes exactly one store call, built from the records of
the batch in order, with an empty batch it makes none; whatever happens
afterwards, the writer makes no further store call. -/
theorem shutdown_flush_valid (SIZE N : Nat) (b : Bridge) (now : Int) (q_ok : Bool)
    (later : List Event) (hrun : b.running = false) (hw : b.writer.exited = false)
    (hc : b.writer.crashed = false) :
    (step SIZE N b (Event.writer now q_ok)).writer.exited = true ∧
      (1 ≤ b.writer.batch.count → b.writer.batch.count ≤ b.writer.batch.ticks.length →
        ValidSymbols b.writer.batch.records →
        (step SIZE N b (Event.writer now q_ok)).writer.store
          = b.writer.store ++ [{ records := b.writer.batch.records,
                                 cols := columns_of b.writer.batch.records, ok := q_ok }]) ∧
      (b.writer.batch.count = 0 →
        (step SIZE N b (Event.writer now q_ok)).writer.store = b.writer.store) ∧
      (later.foldl (step SIZE N) (step SIZE N b (Event.writer now q_ok))).writer.store
        = (step SIZE N b (Event.writer now q_ok)).writer.store := by
  have hstep : (step SIZE N b (Event.writer now q_ok)).writer = writer_final q_ok b.writer := by
    simp only [step, hw, hc, hrun, Bool.false_eq_true, if_false]
  have f1 := (writer_final_spec q_ok b.writer).1
  refine ⟨by rw [hstep]; exact f1, ?_, ?_, ?_⟩
  · intro h hle hv
    rw [hstep]
    exact (writer_final_valid q_ok b.writer (by omega) hle hv).1
  · intro h
    rw [hstep]
    exact (writer_final_empty q_ok b.writer h).1
  · rw [run_writer_exited SIZE N later _ (by rw [hstep]; exact f1)]

/-- In every state reached by a run of the bridge with batch capacity N >= 1
in which the writer has not crashed, the count of the batch is below N, so a
push of a popped tick stores it; and if the ring gives a tick to the next
writer iteration, either the batch becomes full and, its records all having a
symbol index below 5, that iteration hands it to the store and clears it, or
the batch is not full and keeps the new tick. -/
theorem writer_never_overflows (k : Nat) (hk : k < 64) (N : Nat) (hN : 1 ≤ N) (t0 : Int)
    (evs : List Event) (now : Int) (q_ok : Bool)
    (hc : (run_bridge (2 ^ k) N t0 evs).writer.crashed = false) :
    (run_bridge (2 ^ k) N t0 evs).writer.batch.count < N ∧
      (∀ tick,
        ((run_bridge (2 ^ k) N t0 evs).writer.batch.push N tick).records
          = (run_bridge (2 ^ k) N t0 evs).writer.batch.records ++ [tick]) ∧
      (∀ tick ring1,
        SPSCRing.try_pop (2 ^ k) (run_bridge (2 ^ k) N t0 evs).ring = (some tick, ring1) →
        (((run_bridge (2 ^ k) N t0 evs).writer.batch.push N tick).is_full N = true →
          ValidSymbols ((run_bridge (2 ^ k) N t0 evs).writer.batch.records ++ [tick]) →
          (writer_iteration (2 ^ k) N now q_ok (run_bridge (2 ^ k) N t0 evs).ring
              (run_bridge (2 ^ k) N t0 evs).writer).2.store
            = (run_bridge (2 ^ k) N t0 evs).writer.store
                ++ [{ records := (run_bridge (2 ^ k) N t0 evs).writer.batch.records ++ [tick],
                      cols := columns_of
                        ((run_bridge (2 ^ k) N t0 evs).writer.batch.records ++ [tick]),
                      ok := q_ok }] ∧
          (writer_iteration (2 ^ k) N now q_ok (run_bridge (2 ^ k) N t0 evs).ring
              (run_bridge (2 ^ k) N t0 evs).writer).2.batch.count = 0) ∧
        (((run_bridge (2 ^ k) N t0 evs).writer.batch.push N tick).is_full N = false →
          (writer_iteration (2 ^ k) N now q_ok (run_bridge (2 ^ k) N t0 evs).ring
              (run_bridge (2 ^ k) N t0 evs).writer).2.batch
            = (run_bridge (2 ^ k) N t0 evs).writer.batch.push N tick ∧
          (writer_iteration (2 ^ k) N now q_ok (run_bridge (2 ^ k) N t0 evs).ring
              (run_bridge (2 ^ k) N t0 evs).writer).2.store
            = (run_bridge (2 ^ k) N t0 evs).writer.store)) := by
  obtain ⟨_, hB, _⟩ := run_inv k hk N t0 evs
  generalize run_bridge (2 ^ k) N t0 evs = b at *
  obtain ⟨hlen, hcnt⟩ : BatchOk N b.writer.batch := by
    rcases hB with h | h
    · rw [hc] at h; exact absurd h (by decide)
    · exact h
  have hlt : b.writer.batch.count < N := by
    rcases hcnt with h | h
    · exact h
    · omega
  have hrec : ∀ tick, (b.writer.batch.push N tick).records = b.writer.batch.records ++ [tick] := by
    intro tick
    rw [push_lt N _ tick hlt]
    exact take_set_succ _ _ _ (by omega)
  refine ⟨hlt, hrec, ?_⟩
  intro tick ring1 hpop
  constructor
  · intro hfull hv
    have hne : (b.writer.batch.push N tick).count ≠ 0 := by
      rw [push_lt N _ tick hlt]
      simp
    have hle : (b.writer.batch.push N tick).count ≤ (b.writer.batch.push N tick).ticks.length := by
      rw [push_lt N _ tick hlt]
      simp only [List.length_set]
      omega
    simp only [writer_iteration, hpop, hfull, if_true,
      send_nonempty q_ok (b.writer.batch.push N tick) hne hle (by rw [hrec]; exact hv),
      Option.toList_some, hrec]
    exact ⟨trivial, rfl⟩
  · intro hfull
    simp only [writer_iteration, hpop, hfull, Bool.false_eq_true, if_false]
    exact ⟨trivial, trivial⟩

/-! ## The properties of the specification -/

/-- C1 (ring FIFO): for every power-of-two ring size and every sequence of
try_push / try_pop calls applied one at a time to a fresh ring, the records
returned by the successful pops are an initial segment of the records accepted
by the successful pushes; what remains of the accepted records is exactly what
the ring still holds. -/
theorem C1_ring_fifo {T : Type} [Inhabited T] (k : Nat) (hk : k < 64)
    (ops : List (SPSCRing.Op T)) :
    (SPSCRing.run (2 ^ k) ops).popped <+: (SPSCRing.run (2 ^ k) ops).pushed ∧
      (SPSCRing.run (2 ^ k) ops).pushed
        = (SPSCRing.run (2 ^ k) ops).popped
            ++ SPSCRing.live (2 ^ k) (SPSCRing.run (2 ^ k) ops).ring := by
  have h := (SPSCRing.Good_run k hk ops).2
  exact ⟨⟨_, h.symm⟩, h⟩

/-- Witness for C1 on a ring of four slots: three pushes, one pop, two more
pushes (the second refused), two pops. -/
theorem C1_ring_fifo_witness :
    2 < 64 ∧
      (SPSCRing.run (2 ^ 2)
        [SPSCRing.Op.push 10, SPSCRing.Op.push 11, SPSCRing.Op.push 12, SPSCRing.Op.pop,
         SPSCRing.Op.push 13, SPSCRing.Op.push 14, SPSCRing.Op.pop, SPSCRing.Op.pop]).popped
        = [10, 11, 12] ∧
      (SPSCRing.run (2 ^ 2)
        [SPSCRing.Op.push 10, SPSCRing.Op.push 11, SPSCRing.Op.push 12, SPSCRing.Op.pop,
         SPSCRing.Op.push 13, SPSCRing.Op.push 14, SPSCRing.Op.pop, SPSCRing.Op.pop]).popped
        <+: (SPSCRing.run (2 ^ 2)
        [SPSCRing.Op.push 10, SPSCRing.Op.push 11, SPSCRing.Op.push 12, SPSCRing.Op.pop,
         SPSCRing.Op.push 13, SPSCRing.Op.push 14, SPSCRing.Op.pop, SPSCRing.Op.pop]).pushed :=
  ⟨by decide, by decide,
    (C1_ring_fifo 2 (by decide)
      [SPSCRing.Op.push 10, SPSCRing.Op.push 11, SPSCRing.Op.push 12, SPSCRing.Op.pop,
       SPSCRing.Op.push 13, SPSCRing.Op.push 14, SPSCRing.Op.pop, SPSCRing.Op.pop]).1⟩

/-- C2 (ring capacity): on a fresh ring of capacity C = 2 ^ k, with no pops
interleaved, the i-th try_push (counted from 0) returns true exactly when
i < C - 1. Once at least C - 1 pushes have been made the ring is full; if
C >= 2 a try_pop then succeeds and returns the first record pushed, and after
any successful try_pop exactly the first of the following pushes succeeds. -/
theorem C2_ring_capacity {T : Type} [Inhabited T] (k : Nat) (hk : k < 64) (xs ys : List T) :
    (SPSCRing.push_all (2 ^ k) (SPSCRing.init (2 ^ k)) xs).1
        = (List.range xs.length).map (fun i => decide (i < 2 ^ k - 1)) ∧
      (2 ^ k - 1 ≤ xs.length →
        (1 ≤ k →
          xs ≠ [] ∧
          (SPSCRing.try_pop (2 ^ k)
            (SPSCRing.push_all (2 ^ k) (SPSCRing.init (2 ^ k)) xs).2).1 = xs.head?) ∧
        ∀ v r2,
          SPSCRing.try_pop (2 ^ k)
              (SPSCRing.push_all (2 ^ k) (SPSCRing.init (2 ^ k)) xs).2 = (some v, r2) →
            (SPSCRing.push_all (2 ^ k) r2 ys).1
              = (List.range ys.length).map (fun i => decide (i < 1))) := by
  have hC : 1 ≤ 2 ^ k := Nat.one_le_two_pow
  obtain ⟨p1, p2, p3⟩ :=
    SPSCRing.push_all_spec k hk xs (SPSCRing.init (2 ^ k)) (SPSCRing.Inv_init k)
  rw [SPSCRing.occupancy_init] at p1 p3
  rw [SPSCRing.live_init] at p3
  constructor
  · rw [p1]
    apply List.map_congr_left
    intro i _
    congr 1
    apply propext
    constructor <;> intro h <;> omega
  · intro hlen
    have hocc : SPSCRing.occupancy (2 ^ k)
        (SPSCRing.push_all (2 ^ k) (SPSCRing.init (2 ^ k)) xs).2 = 2 ^ k - 1 := by
      rw [← SPSCRing.live_length, p3]
      simp only [List.nil_append, Nat.sub_zero, List.length_take]
      omega
    have hpop := SPSCRing.try_pop_ok k hk _ p2
    constructor
    · intro h1k
      have h2 : 2 ≤ 2 ^ k := by
        calc 2 = 2 ^ 1 := rfl
          _ ≤ 2 ^ k := Nat.pow_le_pow_right (by decide) h1k
      obtain ⟨v, q1, _, q3⟩ := hpop (by omega)
      rw [p3] at q3
      have hne : xs ≠ [] := by
        intro he
        rw [he] at hlen
        simp at hlen
        omega
      refine ⟨hne, ?_⟩
      rw [q1]
      cases xs with
      | nil => exact absurd rfl hne
      | cons x xs =>
        obtain ⟨m, hm⟩ : ∃ m, 2 ^ k - 1 - 0 = m + 1 := ⟨2 ^ k - 2, by omega⟩
        rw [hm] at q3
        simp only [List.nil_append, List.take_succ_cons, List.cons.injEq] at q3
        simp [q3.1]
    · intro v r2 hq
      by_cases hz : SPSCRing.occupancy (2 ^ k)
          (SPSCRing.push_all (2 ^ k) (SPSCRing.init (2 ^ k)) xs).2 = 0
      · rw [SPSCRing.try_pop_empty _ _ p2 hz] at hq
        simp at hq
      · obtain ⟨w, _, q2, q3⟩ := hpop hz
        rw [hq] at q2 q3
        simp only at q2 q3
        have ho2 : SPSCRing.occupancy (2 ^ k) r2 + 2 = 2 ^ k := by
          have hl := congrArg List.length q3
          rw [SPSCRing.live_length, List.length_cons, SPSCRing.live_length, hocc] at hl
          omega
        obtain ⟨s1, _, _⟩ := SPSCRing.push_all_spec k hk ys r2 q2
        rw [s1]
        apply List.map_congr_left
        intro i _
        congr 1
        apply propext
        constructor <;> intro h <;> omega

/-- Witness for C2 on a ring of capacity four: five pushes, one pop, two pushes. -/
theorem C2_ring_capacity_witness :
    2 < 64 ∧
      (SPSCRing.push_all (2 ^ 2) (SPSCRing.init (2 ^ 2)) [1, 2, 3, 4, 5]).1
        = [true, true, true, false, false] ∧
      (SPSCRing.try_pop (2 ^ 2)
        (SPSCRing.push_all (2 ^ 2) (SPSCRing.init (2 ^ 2)) [1, 2, 3, 4, 5]).2).1 = some 1 ∧
      (SPSCRing.push_all (2 ^ 2)
        (SPSCRing.try_pop (2 ^ 2)
          (SPSCRing.push_all (2 ^ 2) (SPSCRing.init (2 ^ 2)) [1, 2, 3, 4, 5]).2).2 [6, 7]).1
        = [true, false] :=
  ⟨by decide,
    (C2_ring_capacity 2 (by decide) [1, 2, 3, 4, 5] [6, 7]).1,
    ((C2_ring_capacity 2 (by decide) [1, 2, 3, 4, 5] [6, 7]).2 (by decide)).1 (by decide) |>.2,
    ((C2_ring_capacity 2 (by decide) [1, 2, 3, 4, 5] [6, 7]).2 (by decide)).2 1 _ (by decide)⟩

/-- C3 (ordered, duplicate-free delivery): in every run of the bridge, taken
as an interleaving of reader iterations, writer iterations, the shutdown signal
and the final flush, the records handed to the store, in flush order, are a
subsequence of the ticks sent upstream; when the upstream sequence numbers are
strictly increasing, so are those of the records handed to the store. -/
theorem C3_ordered_delivery (k : Nat) (hk : k < 64) (N : Nat) (t0 : Int) (evs : List Event)
    (hseq : ((upstream evs).map Tick.seq).Pairwise (fun a b => a < b)) :
    (delivered (run_bridge (2 ^ k) N t0 evs).writer).Sublist (upstream evs) ∧
      ((delivered (run_bridge (2 ^ k) N t0 evs).writer).map Tick.seq).Pairwise
        (fun a b => a < b) := by
  obtain ⟨_, _, hS⟩ := run_inv k hk N t0 evs
  have hsub : (delivered (run_bridge (2 ^ k) N t0 evs).writer).Sublist (upstream evs) := by
    refine List.Sublist.trans ?_ hS
    rw [List.append_assoc]
    exact List.sublist_append_left _ _
  exact ⟨hsub, List.Pairwise.sublist (hsub.map Tick.seq) hseq⟩

/-- Witness for C3: in `sample_run` the ticks 1, 2, 3 are sent, tick 2 is
dropped by the full ring and the store receives ticks 1 and 3 in one batch. -/
theorem C3_ordered_delivery_witness :
    (upstream sample_run).map Tick.seq = [1, 2, 3] ∧
      (delivered (run_bridge (2 ^ 1) 2 0 sample_run).writer).map Tick.seq = [1, 3] ∧
      ((delivered (run_bridge (2 ^ 1) 2 0 sample_run).writer).map Tick.seq).Pairwise
        (fun a b => a < b) :=
  ⟨by decide, by decide, (C3_ordered_delivery 1 (by decide) 2 0 sample_run (by decide)).2⟩

/-- C4 (failure leaves the ring untouched): try_push returns false exactly
when the next write slot equals the read position, try_pop returns false
exactly when the read position equals the write position, and a call that
returns false leaves head, tail and every slot as they were. On a ring of
power-of-two capacity whose cursors are in range, the first condition says
that the ring holds capacity - 1 records (full) and the second that it holds
none (empty). -/
theorem C4_failure_leaves_ring_untouched {T : Type} [Inhabited T] (SIZE : Nat)
    (r : SPSCRing T) (item : T) :
    ((SPSCRing.try_push SIZE r item).1 = false
        ↔ ((r.tail_ + 1) % WORD) &&& SPSCRing.MASK SIZE = r.head_) ∧
      ((SPSCRing.try_push SIZE r item).1 = false → (SPSCRing.try_push SIZE r item).2 = r) ∧
      ((SPSCRing.try_pop SIZE r).1 = none ↔ r.head_ = r.tail_) ∧
      ((SPSCRing.try_pop SIZE r).1 = none → (SPSCRing.try_pop SIZE r).2 = r) ∧
      (∀ k, k < 64 → SIZE = 2 ^ k → SPSCRing.Inv SIZE r →
        ((SPSCRing.try_push SIZE r item).1 = false
          ↔ (SPSCRing.live SIZE r).length = SIZE - 1) ∧
        ((SPSCRing.try_pop SIZE r).1 = none ↔ SPSCRing.live SIZE r = [])) := by
  refine ⟨?_, ?_, ?_, ?_, ?_⟩
  · unfold SPSCRing.try_push
    by_cases h : ((r.tail_ + 1) % WORD) &&& SPSCRing.MASK SIZE = r.head_ <;> simp [h]
  · unfold SPSCRing.try_push
    by_cases h : ((r.tail_ + 1) % WORD) &&& SPSCRing.MASK SIZE = r.head_ <;> simp [h]
  · unfold SPSCRing.try_pop
    by_cases h : r.head_ = r.tail_ <;> simp [h]
  · unfold SPSCRing.try_pop
    by_cases h : r.head_ = r.tail_ <;> simp [h]
  · intro k hk hS hI
    subst hS
    have hlt := SPSCRing.occupancy_lt _ r hI
    rw [SPSCRing.live_length]
    constructor
    · by_cases hroom : SPSCRing.occupancy (2 ^ k) r + 1 < 2 ^ k
      · have h1 := (SPSCRing.try_push_ok k hk r hI item hroom).1
        rw [h1]
        constructor
        · intro h; exact absurd h (by decide)
        · intro h; omega
      · rw [SPSCRing.try_push_full k hk r hI item hroom]
        constructor
        · intro _; omega
        · intro _; rfl
    · by_cases hocc : SPSCRing.occupancy (2 ^ k) r = 0
      · rw [SPSCRing.try_pop_empty _ r hI hocc]
        constructor
        · intro _
          apply List.eq_nil_of_length_eq_zero
          rw [SPSCRing.live_length]
          exact hocc
        · intro _; rfl
      · obtain ⟨v, h1, _, h3⟩ := SPSCRing.try_pop_ok k hk r hI hocc
        rw [h1, h3]
        constructor
        · intro h; exact absurd h (by simp)
        · intro h; exact absurd h (by simp)

/-- Witness for C4: a push into a full ring of two slots and a pop from an
empty one. -/
theorem C4_failure_leaves_ring_untouched_witness :
    (SPSCRing.try_push 2 ({ head_ := 0, tail_ := 1, buffer_ := [7, 0] } : SPSCRing Nat) 9).1
        = false ∧
      (SPSCRing.try_push 2 ({ head_ := 0, tail_ := 1, buffer_ := [7, 0] } : SPSCRing Nat) 9).2
        = { head_ := 0, tail_ := 1, buffer_ := [7, 0] } ∧
      (SPSCRing.try_pop 2 ({ head_ := 1, tail_ := 1, buffer_ := [7, 0] } : SPSCRing Nat)).1
        = none ∧
      (SPSCRing.try_pop 2 ({ head_ := 1, tail_ := 1, buffer_ := [7, 0] } : SPSCRing Nat)).2
        = { head_ := 1, tail_ := 1, buffer_ := [7, 0] } ∧
      (SPSCRing.live 2 ({ head_ := 0, tail_ := 1, buffer_ := [7, 0] } : SPSCRing Nat)).length
        = 2 - 1 :=
  have h := C4_failure_leaves_ring_untouched 2
    ({ head_ := 0, tail_ := 1, buffer_ := [7, 0] } : SPSCRing Nat) 9
  have g := C4_failure_leaves_ring_untouched 2
    ({ head_ := 1, tail_ := 1, buffer_ := [7, 0] } : SPSCRing Nat) 9
  ⟨h.1.2 (by decide), h.2.1 (h.1.2 (by decide)), g.2.2.1.2 rfl, g.2.2.2.1 (g.2.2.1.2 rfl),
    (h.2.2.2.2 1 (by decide) rfl (by decide)).1.1 (h.1.2 (by decide))⟩

/-- C5 (symbol validation) fails on the code: a message of the correct length
whose symbol index is 5 passes the checks of the reader and is pushed into the
ring; once it is popped and the batch is flushed, `symbol_to_str` is asked for
entry 5 of its five-entry table, the flush does not return and the store is
never called. -/
theorem C5_out_of_range_symbol_reaches_flush :
    decode_message message_sym5 = some tick_sym5 ∧
      tick_sym5.sym_idx = 5 ∧
      (reader_iteration RING_SIZE (some message_sym5) (SPSCRing.init RING_SIZE)
          { received := 0, drops := 0, exited := false }).2.received = 1 ∧
      SPSCRing.live RING_SIZE
        (reader_iteration RING_SIZE (some message_sym5) (SPSCRing.init RING_SIZE)
          { received := 0, drops := 0, exited := false }).1 = [tick_sym5] ∧
      (run_bridge RING_SIZE BATCH_SIZE 0
          [Event.reader (some message_sym5), Event.writer 0 true]).writer.batch.records
        = [tick_sym5] ∧
      (run_bridge RING_SIZE BATCH_SIZE 0
          [Event.reader (some message_sym5), Event.writer 0 true,
           Event.writer 200000 true]).writer.crashed = true ∧
      (run_bridge RING_SIZE BATCH_SIZE 0
          [Event.reader (some message_sym5), Event.writer 0 true,
           Event.writer 200000 true]).writer.store = [] ∧
      symbol_to_str tick_sym5.sym_idx = none := by
  refine ⟨by decide, rfl, by decide, by decide, by decide, by decide, by decide, by decide⟩

/-- C6 (flush determinism) fails on the code for a batch that holds a record
with an out-of-range symbol index: the batch reached by receiving and popping
`message_sym5` holds one record, within its capacity of 64, and
`send_batch_to_q` builds no vectors for it: the loop asks `symbol_to_str` for
entry 5 of its five-entry table and the function does not return. -/
theorem C6_flush_crashes_on_symbol_5 :
    bridge_sym5.writer.batch.count = 1 ∧
      bridge_sym5.writer.batch.ticks.length = BATCH_SIZE ∧
      bridge_sym5.writer.batch.records = [tick_sym5] ∧
      symbol_to_str tick_sym5.sym_idx = none ∧
      build_columns bridge_sym5.writer.batch = none ∧
      send_batch_to_q true bridge_sym5.writer.batch = none ∧
      send_batch_to_q false bridge_sym5.writer.batch = none := by
  decide

/-- C7 (batch capacity): starting from an empty TickBatch of capacity N and
pushing records one by one, is_full() is false as long as fewer than N records
have been pushed and true once N have; the batch then holds exactly those N
records, and one more push changes neither the count nor any stored record. -/
theorem C7_batch_capacity (N : Nat) (rs : List Tick) :
    (rs.length < N →
        (rs.foldl (TickBatch.push N) (TickBatch.init N)).is_full N = false) ∧
      (rs.length = N →
        (rs.foldl (TickBatch.push N) (TickBatch.init N)).is_full N = true ∧
        (rs.foldl (TickBatch.push N) (TickBatch.init N)).count = N ∧
        (rs.foldl (TickBatch.push N) (TickBatch.init N)).ticks = rs ∧
        ∀ t, (rs.foldl (TickBatch.push N) (TickBatch.init N)).push N t
          = rs.foldl (TickBatch.push N) (TickBatch.init N)) := by
  constructor
  · intro h
    obtain ⟨h1, _⟩ := push_fold N rs (by omega)
    simp only [TickBatch.is_full, h1, decide_eq_false_iff_not]
    omega
  · intro h
    obtain ⟨h1, h2⟩ := push_fold N rs (by omega)
    refine ⟨?_, ?_, ?_, ?_⟩
    · simp only [TickBatch.is_full, h1, decide_eq_true_eq]
      omega
    · omega
    · rw [h2, h]; simp
    · intro t
      exact push_ge _ _ _ (by omega)

/-- Witness for C7 with capacity two. -/
theorem C7_batch_capacity_witness :
    ([tick_a].foldl (TickBatch.push 2) (TickBatch.init 2)).is_full 2 = false ∧
      ([tick_a, tick_b].foldl (TickBatch.push 2) (TickBatch.init 2)).is_full 2 = true ∧
      ([tick_a, tick_b].foldl (TickBatch.push 2) (TickBatch.init 2)).push 2 tick_stale
        = { ticks := [tick_a, tick_b], count := 2 } :=
  ⟨(C7_batch_capacity 2 [tick_a]).1 (by decide),
    ((C7_batch_capacity 2 [tick_a, tick_b]).2 (by decide)).1,
    (((C7_batch_capacity 2 [tick_a, tick_b]).2 (by decide)).2.2.2 tick_stale).trans
      (by decide)⟩

/-- C8 (timeout flush) fails on the code for a batch that holds a record with
an out-of-range symbol index: after `message_sym5` has been received and
popped the ring is empty, the batch holds one record and the last flush was at
time 0; the iteration at time 200000, past the timeout, makes no store call,
does not clear the batch and does not reset last_flush: the flush does not
return. -/
theorem C8_timeout_flush_crashes_on_symbol_5 :
    bridge_sym5.ring.head_ = bridge_sym5.ring.tail_ ∧
      bridge_sym5.writer.batch.count = 1 ∧
      bridge_sym5.writer.last_flush = 0 ∧
      bridge_sym5.writer.crashed = false ∧
      (200000 : Int) - bridge_sym5.writer.last_flush > flush_timeout ∧
      (writer_iteration RING_SIZE BATCH_SIZE 200000 true bridge_sym5.ring
          bridge_sym5.writer).2.crashed = true ∧
      (writer_iteration RING_SIZE BATCH_SIZE 200000 true bridge_sym5.ring
          bridge_sym5.writer).2.store = [] ∧
      (writer_iteration RING_SIZE BATCH_SIZE 200000 true bridge_sym5.ring
          bridge_sym5.writer).2.batch.count = 1 ∧
      (writer_iteration RING_SIZE BATCH_SIZE 200000 true bridge_sym5.ring
          bridge_sym5.writer).2.last_flush = 0 := by
  decide

/-- C9 (shutdown completeness) fails on the code for a batch that holds a
record with an out-of-range symbol index: after `message_sym5` has been
received and popped and the shutdown signal has arrived, the writer observes
the flag with one record in its batch and an empty ring; its final flush makes
no store call: the flush does not return. -/
theorem C9_final_flush_crashes_on_symbol_5 :
    (step RING_SIZE BATCH_SIZE bridge_sym5 Event.signal).running = false ∧
      (step RING_SIZE BATCH_SIZE bridge_sym5 Event.signal).writer.exited = false ∧
      (step RING_SIZE BATCH_SIZE bridge_sym5 Event.signal).writer.batch.count = 1 ∧
      (step RING_SIZE BATCH_SIZE bridge_sym5 Event.signal).ring.head_
        = (step RING_SIZE BATCH_SIZE bridge_sym5 Event.signal).ring.tail_ ∧
      (step RING_SIZE BATCH_SIZE (step RING_SIZE BATCH_SIZE bridge_sym5 Event.signal)
          (Event.writer 1 true)).writer.crashed = true ∧
      (step RING_SIZE BATCH_SIZE (step RING_SIZE BATCH_SIZE bridge_sym5 Event.signal)
          (Event.writer 1 true)).writer.store = [] := by
  decide

/-- C11 as stated fails on the code: a mis-sized message is dropped by the
reader with both of its counters unchanged, and a batch whose store write
fails inside the writer loop is discarded with batches_sent and ticks_sent
unchanged. -/
theorem C11_uncounted_discards :
    reader_iteration 4 (some message_short) (SPSCRing.init 4) reader_two
        = (SPSCRing.init 4, reader_two) ∧
      (writer_iteration 4 3 100001 false (SPSCRing.init 4) writer_two_of_three).2.store
        = [{ records := [tick_a, tick_b], cols := columns_of [tick_a, tick_b], ok := false }] ∧
      (writer_iteration 4 3 100001 false (SPSCRing.init 4) writer_two_of_three).2.batch.count
        = 0 ∧
      (writer_iteration 4 3 100001 false (SPSCRing.init 4) writer_two_of_three).2.batches_sent
        = writer_two_of_three.batches_sent ∧
      (writer_iteration 4 3 100001 false (SPSCRing.init 4) writer_two_of_three).2.ticks_sent
        = writer_two_of_three.ticks_sent := by
  decide

/-- C11 (every discard is counted), amended: a tick dropped because try_push
returned false adds one to the drops counter of the reader (modulo 2 ^ 64, so
the counter strictly increases unless it is at its maximum); a message that
fails the checks of the reader is dropped with the reader's counters
unchanged; and an iteration of the writer loop whose store write fails clears
the batch with batches_sent and ticks_sent unchanged. -/
theorem C11_only_ring_drops_counted (SIZE N : Nat) (now : Int) (ring : SPSCRing Tick)
    (st : ReaderState) (w : WriterState) (m : RedisReply) :
    (∀ tick, decode_message m = some tick →
        (SPSCRing.try_push SIZE ring tick).1 = false →
        (reader_iteration SIZE (some m) ring st).2.drops = (st.drops + 1) % WORD ∧
        (reader_iteration SIZE (some m) ring st).2.received = st.received ∧
        (st.drops + 1 < WORD → st.drops < (reader_iteration SIZE (some m) ring st).2.drops)) ∧
      (decode_message m = none → (reader_iteration SIZE (some m) ring st).2 = st) ∧
      ((writer_iteration SIZE N now false ring w).2.store ≠ w.store →
        (writer_iteration SIZE N now false ring w).2.batch.count = 0 ∧
        (writer_iteration SIZE N now false ring w).2.batches_sent = w.batches_sent ∧
        (writer_iteration SIZE N now false ring w).2.ticks_sent = w.ticks_sent) := by
  refine ⟨?_, ?_, ?_⟩
  · intro tick hd hf
    rw [reader_iteration_eq, hd]
    simp only [hf, count_push, Bool.false_eq_true, if_false]
    refine ⟨trivial, trivial, ?_⟩
    intro h
    rw [Nat.mod_eq_of_lt h]
    omega
  · intro hd
    rw [reader_iteration_eq, hd]
  · intro hne
    rcases hq : SPSCRing.try_pop SIZE ring with ⟨o, r⟩
    cases o with
    | some tick =>
      simp only [writer_iteration, hq] at hne ⊢
      by_cases hfull : (w.batch.push N tick).is_full N = true
      · simp only [hfull, if_true] at hne ⊢
        rcases send_cases false (w.batch.push N tick) with ⟨_, hs⟩ | ⟨_, hs⟩ | ⟨_, cols, hs⟩
        · simp [hs] at hne
        · simp [hs] at hne
        · simp only [hs]
          exact ⟨rfl, rfl, rfl⟩
      · simp [hfull] at hne
    | none =>
      simp only [writer_iteration, hq] at hne ⊢
      by_cases hc : (!w.batch.is_empty && decide (now - w.last_flush > flush_timeout)) = true
      · simp only [hc, if_true] at hne ⊢
        rcases send_cases false w.batch with ⟨_, hs⟩ | ⟨_, hs⟩ | ⟨_, cols, hs⟩
        · simp [hs] at hne
        · simp [hs] at hne
        · simp only [hs]
          exact ⟨rfl, rfl, rfl⟩
      · simp [hc] at hne

/-- Witness for C11 (amended): a tick pushed against the full ring of two
slots is counted in drops; the three-byte message leaves the reader as it was;
the refused timeout flush leaves batches_sent at its value. -/
theorem C11_only_ring_drops_counted_witness :
    (reader_iteration 2 (some (message (payload 10 0 5 7 1))) ring_full_two reader_two).2.drops
        = 1 ∧
      reader_two.drops
        < (reader_iteration 2 (some (message (payload 10 0 5 7 1))) ring_full_two reader_two).2.drops ∧
      (reader_iteration 2 (some message_short) ring_full_two reader_two).2 = reader_two ∧
      (writer_iteration 2 3 100001 false (SPSCRing.init 2) writer_two_of_three).2.batches_sent
        = writer_two_of_three.batches_sent :=
  ⟨by decide,
    ((C11_only_ring_drops_counted 2 3 0 ring_full_two reader_two writer_two_of_three
      (message (payload 10 0 5 7 1))).1 tick_c (by decide) (by decide)).2.2 (by decide),
    (C11_only_ring_drops_counted 2 3 0 ring_full_two reader_two writer_two_of_three
      message_short).2.1 (by decide),
    ((C11_only_ring_drops_counted 2 3 100001 (SPSCRing.init 2) reader_two writer_two_of_three
      message_short).2.2 (by decide)).2.1⟩

/-- C12 (drop accounting): when the reader pushes the ticks of N well-formed
messages against a full ring with no pop in between, the ring and the received
counter are unchanged and the drop counter becomes its old value plus N
(modulo 2 ^ 64, the counter being a uint64_t); and in every run of the bridge
in which the reader stays in its loop, with writer iterations interleaved
arbitrarily, received + drops equals the number of push attempts (modulo
2 ^ 64, and exactly as long as that number is below 2 ^ 64). -/
theorem C12_drop_accounting (SIZE N : Nat) (t0 : Int) (ring : SPSCRing Tick)
    (st : ReaderState) (ms : List RedisReply) (evs : List Event)
    (hfull : ((ring.tail_ + 1) % WORD) &&& SPSCRing.MASK SIZE = ring.head_)
    (hst : st.drops < WORD)
    (hwf : ∀ m ∈ ms, decode_message m ≠ none)
    (hlive : ∀ e ∈ evs, e ≠ Event.signal ∧ e ≠ Event.reader none) :
    ((reader_run SIZE ms ring st).1 = ring ∧
        (reader_run SIZE ms ring st).2.received = st.received ∧
        (reader_run SIZE ms ring st).2.drops = (st.drops + ms.length) % WORD ∧
        (st.drops + ms.length < WORD →
          (reader_run SIZE ms ring st).2.drops = st.drops + ms.length)) ∧
      (((run_bridge SIZE N t0 evs).reader.received + (run_bridge SIZE N t0 evs).reader.drops)
            % WORD = (upstream evs).length % WORD ∧
        ((upstream evs).length < WORD →
          (run_bridge SIZE N t0 evs).reader.received + (run_bridge SIZE N t0 evs).reader.drops
            = (upstream evs).length)) := by
  constructor
  · rw [reader_run_full SIZE ring hfull ms hwf st hst]
    refine ⟨rfl, rfl, rfl, ?_⟩
    intro h
    exact Nat.mod_eq_of_lt h
  · obtain ⟨_, _, a, d, ha, hd, hsum⟩ := run_reader_count SIZE N t0 evs hlive
    rw [ha, hd, ← hsum]
    constructor
    · unfold WORD
      omega
    · intro h
      rw [Nat.mod_eq_of_lt (by omega), Nat.mod_eq_of_lt (by omega)]

/-- Witness for C12: three well-formed messages against the full ring of two
slots give three drops; in `sample_run_live` three push attempts give two
accepted ticks and one drop. -/
theorem C12_drop_accounting_witness :
    (reader_run 2 [message (payload 10 0 5 7 1), message (payload 20 1 5 7 2),
        message (payload 30 2 5 7 3)] ring_full_two reader_two).2.drops = 3 ∧
      (reader_run 2 [message (payload 10 0 5 7 1), message (payload 20 1 5 7 2),
        message (payload 30 2 5 7 3)] ring_full_two reader_two).1 = ring_full_two ∧
      (run_bridge 2 2 0 sample_run_live).reader.received = 2 ∧
      (run_bridge 2 2 0 sample_run_live).reader.drops = 1 ∧
      (run_bridge 2 2 0 sample_run_live).reader.received
          + (run_bridge 2 2 0 sample_run_live).reader.drops
        = (upstream sample_run_live).length :=
  have h := C12_drop_accounting 2 2 0 ring_full_two reader_two
    [message (payload 10 0 5 7 1), message (payload 20 1 5 7 2), message (payload 30 2 5 7 3)]
    sample_run_live (by decide) (by decide) (by decide) (by decide)
  ⟨(h.1.2.2.2 (by decide)).trans (by decide), h.1.1, by decide, by decide, h.2.2 (by decide)⟩

/-- C13 (length validation): a reply that is not an array of three elements
whose third element is a string of 32 bytes makes the reader do nothing: the
ring and the reader are as before and the loop goes on; a reply that is such
an array makes the reader call try_push once, on the tick copied from the 32
bytes, and count its outcome; the bytes of that tick are the payload. -/
theorem C13_length_validation (SIZE : Nat) (ring : SPSCRing Tick) (st : ReaderState)
    (m : RedisReply) :
    (¬ WellFormed m → reader_iteration SIZE (some m) ring st = (ring, st)) ∧
      (∀ e0 e1 data, m.type = ReplyType.array → m.element = [e0, e1, data] →
        data.type = ReplyType.string → data.str.length = 32 →
        reader_iteration SIZE (some m) ring st
          = ((SPSCRing.try_push SIZE ring (memcpy_Tick data.str)).2,
             count_push (SPSCRing.try_push SIZE ring (memcpy_Tick data.str)).1 st) ∧
        ((∀ b ∈ data.str, b < 256) → bytes_of_Tick (memcpy_Tick data.str) = data.str)) := by
  constructor
  · intro h
    rw [reader_iteration_eq, (decode_none_iff m).2 h]
  · intro e0 e1 data h1 h2 h3 h4
    constructor
    · rw [reader_iteration_eq, decode_wellformed m e0 e1 data h1 h2 h3 h4]
    · intro hb
      exact bytes_of_memcpy data.str h4 hb

/-- Witness for C13: the three-byte message changes nothing; a 32-byte message
is pushed into the empty ring of four slots and counted as received. -/
theorem C13_length_validation_witness :
    reader_iteration 4 (some message_short) (SPSCRing.init 4) reader_two
        = (SPSCRing.init 4, reader_two) ∧
      (reader_iteration 4 (some (message (payload 10 0 5 7 1))) (SPSCRing.init 4)
          reader_two).2.received = 3 ∧
      SPSCRing.live 4 (reader_iteration 4 (some (message (payload 10 0 5 7 1)))
          (SPSCRing.init 4) reader_two).1
        = [tick_c] ∧
      bytes_of_Tick (memcpy_Tick (payload 10 0 5 7 1)) = payload 10 0 5 7 1 :=
  ⟨(C13_length_validation 4 (SPSCRing.init 4) reader_two message_short).1
      ((decode_none_iff message_short).1 (by decide)),
    by decide, by decide,
    ((C13_length_validation 4 (SPSCRing.init 4) reader_two
      (message (payload 10 0 5 7 1))).2 _ _ _ rfl rfl rfl rfl).2 (by decide)⟩

/-- C14 (power-of-two capacity check) fails on the code at SIZE = 0: zero is
not a power of two, yet the test `(SIZE & (SIZE - 1)) == 0` of the
static_assert holds for it, so `SPSCRing<T, 0>` is accepted; its slot array is
empty and its mask is all ones. Sizes that are neither zero nor a power of two
are rejected, powers of two are accepted. -/
theorem C14_static_assert_accepts_zero :
    SPSCRing.static_assert_SIZE 0 = true ∧
      (¬ ∃ k, 0 = 2 ^ k) ∧
      (SPSCRing.init 0 : SPSCRing Tick).buffer_.length = 0 ∧
      SPSCRing.MASK 0 = 2 ^ 64 - 1 ∧
      SPSCRing.static_assert_SIZE 6 = false ∧
      SPSCRing.static_assert_SIZE RING_SIZE = true := by
  refine ⟨by decide, ?_, by decide, by decide, by decide, by decide⟩
  rintro ⟨k, hk⟩
  have : 1 ≤ 2 ^ k := Nat.one_le_two_pow
  omega

/-- C16 (ring occupancy invariant): in every state reached from a fresh ring of
capacity C = 2 ^ k by try_push / try_pop calls, head and tail are below C, the
slot array has C slots, and the number of live records (successful pushes
minus successful pops) lies between 0 and C - 1. -/
theorem C16_ring_occupancy {T : Type} [Inhabited T] (k : Nat) (hk : k < 64)
    (ops : List (SPSCRing.Op T)) :
    (SPSCRing.run (2 ^ k) ops).ring.head_ < 2 ^ k ∧
      (SPSCRing.run (2 ^ k) ops).ring.tail_ < 2 ^ k ∧
      (SPSCRing.run (2 ^ k) ops).ring.buffer_.length = 2 ^ k ∧
      (SPSCRing.run (2 ^ k) ops).popped.length ≤ (SPSCRing.run (2 ^ k) ops).pushed.length ∧
      (SPSCRing.run (2 ^ k) ops).pushed.length - (SPSCRing.run (2 ^ k) ops).popped.length
        ≤ 2 ^ k - 1 := by
  obtain ⟨hI, hp⟩ := SPSCRing.Good_run k hk ops
  have hlt := SPSCRing.occupancy_lt _ _ hI
  have hl := congrArg List.length hp
  rw [List.length_append, SPSCRing.live_length] at hl
  obtain ⟨h1, h2, h3⟩ := hI
  exact ⟨h1, h2, h3, by omega, by omega⟩

/-- Witness for C16 on `sample_ops`: head 2, tail 0 (wrapped), two live
records out of at most three. -/
theorem C16_ring_occupancy_witness :
    (SPSCRing.run (2 ^ 2) sample_ops).ring.head_ = 2 ∧
      (SPSCRing.run (2 ^ 2) sample_ops).ring.tail_ = 0 ∧
      (SPSCRing.run (2 ^ 2) sample_ops).pushed.length = 4 ∧
      (SPSCRing.run (2 ^ 2) sample_ops).popped.length = 2 ∧
      (SPSCRing.run (2 ^ 2) sample_ops).pushed.length
          - (SPSCRing.run (2 ^ 2) sample_ops).popped.length ≤ 2 ^ 2 - 1 :=
  ⟨by decide, by decide, by decide, by decide,
    (C16_ring_occupancy 2 (by decide) sample_ops).2.2.2.2⟩

/-- C17 (batch bound invariant): after every sequence of push and clear calls
on a default-constructed TickBatch of capacity N the count is at most N and
the array keeps its N slots; a push either changes nothing or writes exactly
the slot at the old count, which is then below N; clear sets the count to 0
and leaves every element of the array as it was. -/
theorem C17_batch_bound (N : Nat) (ops : List BatchOp) (b : TickBatch) (t : Tick) :
    (TickBatch.run N ops).count ≤ N ∧
      (TickBatch.run N ops).ticks.length = N ∧
      (b.push N t = b ∨
        (b.count < N ∧
          b.push N t = { ticks := b.ticks.set b.count t, count := b.count + 1 })) ∧
      b.clear.count = 0 ∧ b.clear.ticks = b.ticks := by
  obtain ⟨h1, h2⟩ := batch_run_inv N ops
  refine ⟨h1, h2, ?_, rfl, rfl⟩
  by_cases hlt : b.count < N
  · exact Or.inr ⟨hlt, push_lt N b t hlt⟩
  · exact Or.inl (push_ge N b t hlt)

set_option maxRecDepth 100000

/-- C18 (the writer never overflows its batch) fails on the code in its last
clause for a batch that holds a record with an out-of-range symbol index: in
`full_batch_run` the batch holds 63 records before the last writer iteration,
that iteration pops the 64th and makes the batch full, and the batch is not
flushed: the flush does not return, the store is never called and the batch
stays full. -/
theorem C18_full_batch_flush_crashes_on_symbol_5 :
    (run_bridge RING_SIZE BATCH_SIZE 0 (full_batch_run.take 127)).writer.batch.count = 63 ∧
      (SPSCRing.try_pop RING_SIZE
          (run_bridge RING_SIZE BATCH_SIZE 0 (full_batch_run.take 127)).ring).1
        = some tick_c ∧
      (run_bridge RING_SIZE BATCH_SIZE 0 full_batch_run).writer.crashed = true ∧
      (run_bridge RING_SIZE BATCH_SIZE 0 full_batch_run).writer.store = [] ∧
      (run_bridge RING_SIZE BATCH_SIZE 0 full_batch_run).writer.batch.count = BATCH_SIZE := by
  decide

/-- C19 (approx_size is exact when nothing runs concurrently): in every state
reached from a fresh ring of capacity C = 2 ^ k by try_push / try_pop calls,
approx_size() equals the number of successful pushes minus the number of
successful pops, and is_empty() is true exactly when approx_size() is 0. -/
theorem C19_approx_size_exact {T : Type} [Inhabited T] (k : Nat) (hk : k < 64)
    (ops : List (SPSCRing.Op T)) :
    SPSCRing.approx_size (2 ^ k) (SPSCRing.run (2 ^ k) ops).ring
        = (SPSCRing.run (2 ^ k) ops).pushed.length
            - (SPSCRing.run (2 ^ k) ops).popped.length ∧
      ((SPSCRing.run (2 ^ k) ops).ring.is_empty = true
        ↔ SPSCRing.approx_size (2 ^ k) (SPSCRing.run (2 ^ k) ops).ring = 0) := by
  obtain ⟨hI, hp⟩ := SPSCRing.Good_run k hk ops
  have hl := congrArg List.length hp
  rw [List.length_append, SPSCRing.live_length] at hl
  rw [approx_size_eq k hk _ hI]
  constructor
  · omega
  · rw [occupancy_zero_iff _ _ hI]
    simp [SPSCRing.is_empty]

/-- Witness for C19 on `sample_ops`: the tail has wrapped below the head and
approx_size() is 2. -/
theorem C19_approx_size_exact_witness :
    SPSCRing.approx_size (2 ^ 2) (SPSCRing.run (2 ^ 2) sample_ops).ring = 2 ∧
      SPSCRing.approx_size (2 ^ 2) (SPSCRing.run (2 ^ 2) sample_ops).ring
        = (SPSCRing.run (2 ^ 2) sample_ops).pushed.length
            - (SPSCRing.run (2 ^ 2) sample_ops).popped.length ∧
      (SPSCRing.run (2 ^ 2) sample_ops).ring.is_empty = false :=
  ⟨by decide, (C19_approx_size_exact 2 (by decide) sample_ops).1, by decide⟩

/-- C20 (sent counters match successful writes) fails on the code at the
final flush: when the store accepts the final flush, the writer exits with one
successful store write and batches_sent still 0; when the store refuses it,
the writer exits with no tick written and ticks_sent equal to 1. -/
theorem C20_final_flush_miscounts :
    (run_bridge RING_SIZE BATCH_SIZE 0 (shutdown_run true)).writer.exited = true ∧
      successful_writes (run_bridge RING_SIZE BATCH_SIZE 0 (shutdown_run true)).writer = 1 ∧
      (run_bridge RING_SIZE BATCH_SIZE 0 (shutdown_run true)).writer.batches_sent = 0 ∧
      (run_bridge RING_SIZE BATCH_SIZE 0 (shutdown_run false)).writer.exited = true ∧
      ticks_written (run_bridge RING_SIZE BATCH_SIZE 0 (shutdown_run false)).writer = 0 ∧
      (run_bridge RING_SIZE BATCH_SIZE 0 (shutdown_run false)).writer.ticks_sent = 1 := by
  decide

end qtick
